import Mathlib

/-!
# Daily Chinese Teacher: subscription scheduler and word pipeline

A shallow embedding of `subscription.go` and `word_service.go` together with the
parts of the Go standard library (`time`) they rely on, and the properties of the
scheduler and the pipeline proved over that embedding.

Conventions.
* Instants are Unix seconds plus nanoseconds, as unbounded integers; the instants
  a running process can observe are far from the limits of the 64-bit fields.
* A Go `map` is an association list; a lookup finds the first entry for a key and
  a delete drops every entry for it.
* Channels created by `make(chan struct{})` are numbered in order of creation.
* Calls to collaborators (HTTP client, completion client, message sender) are
  functions supplied with the receiver; every call is recorded in a trace. A context
  that expires shows as the error its collaborator returns.
* The clock is read by the caller: a function that calls `time.Now()` takes the value
  read as the argument `now`.
-/

namespace DailyChineseTeacher

/-! ## The `time` package -/

/-- Zone transition of a location: from the instant `when` (Unix seconds) on, the zone
with UTC offset `offset` (seconds east of UTC) is in force. -/
structure zoneTrans where
  when : Int
  offset : Int
deriving DecidableEq, Repr

/-- Location of the `time` package: the offset in force before the first transition and
the transitions in increasing order of `when`. The location with no transition and
offset 0 is UTC. -/
structure Location where
  firstOffset : Int
  tx : List zoneTrans
deriving DecidableEq, Repr

/-- Beginning of time for zone lookups (`alpha` in `zoneinfo.go`). -/
def alpha : Int := -(2 ^ 63)

/-- End of time for zone lookups (`omega` in `zoneinfo.go`). -/
def omegaEnd : Int := 2 ^ 63 - 1

/-- Result of `Location.lookup`: the offset in force and the interval `[start, finish)` of
instants over which it is in force. -/
structure zoneSpan where
  offset : Int
  start : Int
  finish : Int
deriving DecidableEq, Repr

/-- Scan of the transition table: `offset` has been in force since `start`; the first
transition later than `sec` ends the span. -/
def lookupFrom : List zoneTrans → Int → Int → Int → zoneSpan
  | [], _, offset, start => ⟨offset, start, omegaEnd⟩
  | t :: rest, sec, offset, start =>
    if sec < t.when then ⟨offset, start, t.when⟩ else lookupFrom rest sec t.offset t.when

/-- The zone information in use at the instant `sec`: `Location.lookup`. -/
def Location.lookup (l : Location) (sec : Int) : zoneSpan :=
  lookupFrom l.tx sec l.firstOffset alpha

/-- The location `time.UTC`. -/
def UTC : Location := ⟨0, []⟩

/-- Value of `time.Time`: an instant (Unix seconds and nanoseconds within the second)
and the location in which it is presented. -/
structure Time where
  sec : Int
  nsec : Int
  loc : Location
deriving DecidableEq, Repr

/-- Nanoseconds since the Unix epoch: `Time.UnixNano`. -/
def Time.UnixNano (t : Time) : Int := t.sec * 1000000000 + t.nsec

/-- Duration constant `time.Second`, in nanoseconds. -/
def Second : Int := 1000000000

/-- Duration constant `time.Hour`, in nanoseconds. -/
def Hour : Int := 3600 * Second

/-- Days since 1970-01-01 of a date of the proleptic Gregorian calendar. The year is
counted from March so that the leap day ends it; `day` may lie outside the month. -/
def daysFromCivil (year month day : Int) : Int :=
  let y := if month ≤ 2 then year - 1 else year
  let era := y / 400
  let yoe := y - era * 400
  let mp := if month > 2 then month - 3 else month + 9
  let doy := (153 * mp + 2) / 5 + day - 1
  let doe := yoe * 365 + yoe / 4 - yoe / 100 + doy
  era * 146097 + doe - 719468

/-- Year, month and day of the proleptic Gregorian calendar of a day counted from
1970-01-01. -/
def civilFromDays (days : Int) : Int × Int × Int :=
  let z := days + 719468
  let era := z / 146097
  let doe := z - era * 146097
  let yoe := (doe - doe / 1460 + doe / 36524 - doe / 146096) / 365
  let y := yoe + era * 400
  let doy := doe - (365 * yoe + yoe / 4 - yoe / 100)
  let mp := (5 * doy + 2) / 153
  let d := doy - (153 * mp + 2) / 5 + 1
  let m := if mp < 10 then mp + 3 else mp - 9
  (if m ≤ 2 then y + 1 else y, m, d)

/-- Seconds of the instant shifted by the zone offset in force: the local wall clock
(`Time.abs`, counted here from the Unix epoch). -/
def Time.abs (t : Time) : Int := t.sec + (t.loc.lookup t.sec).offset

/-- Year of the local date: `Time.Year`. -/
def Time.Year (t : Time) : Int := (civilFromDays (t.abs / 86400)).1

/-- Month of the local date, 1 to 12: `Time.Month`. -/
def Time.Month (t : Time) : Int := (civilFromDays (t.abs / 86400)).2.1

/-- Day of the month of the local date: `Time.Day`. -/
def Time.Day (t : Time) : Int := (civilFromDays (t.abs / 86400)).2.2

/-- Hour within the local day, 0 to 23: `Time.Hour`. -/
def Time.Hour (t : Time) : Int := t.abs % 86400 / 3600

/-- Minute within the local hour, 0 to 59: `Time.Minute`. -/
def Time.Minute (t : Time) : Int := t.abs % 3600 / 60

/-- The location of the time: `Time.Location`. -/
def Time.Location (t : Time) : Location := t.loc

/-- Report whether the instant `t` is after `u`: `Time.After`. -/
def Time.After (t u : Time) : Bool :=
  decide (t.sec > u.sec) || (decide (t.sec = u.sec) && decide (t.nsec > u.nsec))

/-- The time `t + d` for a duration `d` in nanoseconds: `Time.Add`. Go divides the
duration truncating towards zero and then brings the nanoseconds back into range. -/
def Time.Add (t : Time) (d : Int) : Time :=
  let dsec := Int.tdiv d 1000000000
  let nsec := t.nsec + Int.tmod d 1000000000
  if nsec ≥ 1000000000 then { t with sec := t.sec + (dsec + 1), nsec := nsec - 1000000000 }
  else if nsec < 0 then { t with sec := t.sec + (dsec - 1), nsec := nsec + 1000000000 }
  else { t with sec := t.sec + dsec, nsec := nsec }

/-- Carry of `lo` into `hi` so that `0 ≤ lo < base`: `norm` of `time.go`. -/
def norm (hi lo base : Int) : Int × Int :=
  let p : Int × Int :=
    if lo < 0 then (hi - ((-lo - 1) / base + 1), lo + ((-lo - 1) / base + 1) * base) else (hi, lo)
  if p.2 ≥ base then (p.1 + p.2 / base, p.2 - p.2 / base * base) else p

/-- The time of the given wall-clock date and time in the location: `time.Date`.
Fields out of range are carried over; the zone offset is the one found for the wall
clock read as UTC, corrected by a second lookup when that lands outside the zone's span
(wall clocks that a transition skips or repeats). -/
def Date (year month day hour min sec nsec : Int) (loc : Location) : Time :=
  let ym := norm year (month - 1) 12
  let sn := norm sec nsec 1000000000
  let ms := norm min sn.1 60
  let hm := norm hour ms.1 60
  let dh := norm day hm.1 24
  let d := daysFromCivil ym.1 (ym.2 + 1) dh.1
  let unix := d * 86400 + (dh.2 * 3600 + hm.2 * 60 + ms.2)
  let z := loc.lookup unix
  let unix :=
    if z.offset ≠ 0 then
      let utc := unix - z.offset
      let offset := if utc < z.start ∨ utc ≥ z.finish then (loc.lookup utc).offset else z.offset
      unix - offset
    else unix
  { sec := unix, nsec := sn.2, loc := loc }

/-! ## `subscription.go`: next-run computation -/

/-- The method `SubscriptionManager.calculateNextRun`; `now` is the value `time.Now()`
returns. -/
def calculateNextRun (scheduledTime now : Time) : Time :=
  let today := Date now.Year now.Month now.Day scheduledTime.Hour scheduledTime.Minute 0 0
    now.Location
  if today.After now then today else today.Add (24 * Hour)

/-- Wall-clock seconds of the candidate `time.Date` builds from the date of `now` and
the hour and minute of `scheduledTime`, read as UTC. -/
def wallOfToday (scheduledTime now : Time) : Int :=
  now.abs / 86400 * 86400 + (scheduledTime.Hour * 3600 + scheduledTime.Minute * 60 + 0)

/-- The UTC offset with which `time.Date` resolves the wall clock of the candidate: the
wall clock less the instant of the candidate. It is the offset in force at the candidate
unless a zone transition skips that wall clock. -/
def resolvedOffset (scheduledTime now : Time) : Int :=
  wallOfToday scheduledTime now -
    (Date now.Year now.Month now.Day scheduledTime.Hour scheduledTime.Minute 0 0
      now.Location).sec

/-- Decimal rendering of `x` padded with zeros to at least `width` digits, with a sign
for negative numbers: `appendInt` of `format.go`. -/
def appendInt (x : Int) (width : Nat) : String :=
  (if x < 0 then "-" else "") ++
    String.mk (List.replicate (width - (Nat.repr x.natAbs).length) '0') ++ Nat.repr x.natAbs

/-- The rendering `t.Format("2006-01-02")`: year, month and day of the local date. -/
def Time.Format (t : Time) : String :=
  appendInt t.Year 4 ++ "-" ++ appendInt t.Month 2 ++ "-" ++ appendInt t.Day 2

/-! ## Errors -/

/-- Go error value: a plain message (an error of a collaborator, or `fmt.Errorf`
without `%w`), or `fmt.Errorf(pre + "%w", cause)`, which wraps its cause. -/
inductive GoError where
  | msg (text : String)
  | wrap (pre : String) (cause : GoError)
deriving DecidableEq, Repr

/-- The message of the error: `error.Error`. -/
def GoError.Error : GoError → String
  | .msg text => text
  | .wrap pre cause => pre ++ cause.Error

/-- The wrapped cause, if any: `errors.Unwrap`. -/
def GoError.Unwrap : GoError → Option GoError
  | .msg _ => none
  | .wrap _ cause => some cause

/-! ## `word_service.go` -/

/-- The constant `ChineseClass101URL` up to its `%s` verb, which ends the format. -/
def ChineseClass101URL : String := "https://www.chineseclass101.com/api/word-day/"

/-- The constant `MaxTokens`. -/
def MaxTokens : Nat := 150

/-- The constant `GPTModel`. -/
def GPTModel : String := "gpt-4.1"

/-- The constant `http.StatusOK`. -/
def StatusOK : Int := 200

/-- The constant `openai.ChatMessageRoleUser`. -/
def ChatMessageRoleUser : String := "user"

/-- Element of `WordOfDayResponse.Payload.WordDay.Samples`. -/
structure Sample where
  Text : String
  English : String
  Romanization : String
  Traditional : String
  AudioTarget : String
deriving DecidableEq, Repr

/-- The struct `WordOfDayResponse.Payload.WordDay`. -/
structure WordDay where
  Date : String
  Text : String
  English : String
  Meaning : String
  Romanization : String
  Traditional : String
  AudioTarget : String
  ImageURL : String
  Samples : List Sample
deriving DecidableEq, Repr

/-- The struct `WordOfDayResponse.Payload`. -/
structure Payload where
  WordDay : WordDay
deriving DecidableEq, Repr

/-- The struct `WordOfDayResponse`. -/
structure WordOfDayResponse where
  Status : String
  Code : Int
  Payload : Payload
deriving DecidableEq, Repr

/-- The `http.Response` of the word source: its status code, what
`json.NewDecoder(resp.Body).Decode` makes of its body, and what `resp.Body.Close`
returns. -/
structure Response where
  StatusCode : Int
  Body : Except GoError WordOfDayResponse
  Close : Option GoError

/-- The `http.Client`: `Do` for a GET request of the URL, under the context of the call. -/
structure HttpClient where
  Do : String → Except GoError Response

/-- The struct `openai.ChatCompletionMessage`. -/
structure ChatCompletionMessage where
  Role : String
  Content : String
deriving DecidableEq, Repr

/-- The struct `openai.ChatCompletionRequest`. -/
structure ChatCompletionRequest where
  Model : String
  Messages : List ChatCompletionMessage
  MaxTokens : Nat
deriving DecidableEq, Repr

/-- The struct `openai.ChatCompletionChoice`. -/
structure ChatCompletionChoice where
  Message : ChatCompletionMessage
deriving DecidableEq, Repr

/-- The struct `openai.ChatCompletionResponse`. -/
structure ChatCompletionResponse where
  Choices : List ChatCompletionChoice
deriving DecidableEq, Repr

/-- The `openai.Client`: `CreateChatCompletion` under the context of the call. -/
structure OpenAIClient where
  CreateChatCompletion : ChatCompletionRequest → Except GoError ChatCompletionResponse

/-- The struct `WordService`. -/
structure WordService where
  client : HttpClient
  openaiClient : OpenAIClient
  prompt : String

/-- Observable action of the program. -/
inductive Event where
  | httpDo (url : String)
  | createChatCompletion (req : ChatCompletionRequest)
  | sendMessage (channelID message : String)
  | log (line : String)
deriving DecidableEq, Repr

/-- Run of a function: it returns `val` after the actions `trace`, or it panics after
them. -/
inductive Exec (α : Type) where
  | done (trace : List Event) (val : α)
  | panicked (trace : List Event) (text : String)

/-- The actions of a run. -/
def Exec.trace {α : Type} : Exec α → List Event
  | .done trace _ => trace
  | .panicked trace _ => trace

/-- The log line of the deferred `resp.Body.Close()`. -/
def closeBody (resp : Response) : List Event :=
  match resp.Close with
  | some err => [Event.log ("Error closing response body: " ++ err.Error)]
  | none => []

/-- The method `WordService.fetchWordOfDay`. `http.NewRequestWithContext` fails only on
an invalid method, a nil context or a URL that does not parse, none of which this
request has. -/
def fetchWordOfDay (ws : WordService) (date : String) :
    Exec (Except GoError WordOfDayResponse) :=
  let url := ChineseClass101URL ++ date
  match ws.client.Do url with
  | .error err => .done [Event.httpDo url] (.error (.wrap "making request: " err))
  | .ok resp =>
    if resp.StatusCode ≠ StatusOK then
      .done (Event.httpDo url :: closeBody resp)
        (.error (.msg ("API returned status code " ++ toString resp.StatusCode)))
    else
      match resp.Body with
      | .error err =>
        .done (Event.httpDo url :: closeBody resp) (.error (.wrap "decoding response: " err))
      | .ok wordResponse =>
        if wordResponse.Status ≠ "success" then
          .done (Event.httpDo url :: closeBody resp)
            (.error (.msg ("API returned error status: " ++ wordResponse.Status)))
        else .done (Event.httpDo url :: closeBody resp) (.ok wordResponse)

/-- The request `translateWord` builds for a fetched word. -/
def completionRequest (ws : WordService) (wordResponse : WordOfDayResponse) :
    ChatCompletionRequest :=
  { Model := GPTModel,
    Messages := [{ Role := ChatMessageRoleUser,
                   Content := ws.prompt ++ "\n\n" ++ wordResponse.Payload.WordDay.Text ++ " " ++
                     wordResponse.Payload.WordDay.Romanization }],
    MaxTokens := MaxTokens }

/-- The method `WordService.translateWord`. Indexing `resp.Choices[0]` panics when the
slice is empty. -/
def translateWord (ws : WordService) (wordResponse : WordOfDayResponse) :
    Exec (String × Option GoError) :=
  let req := completionRequest ws wordResponse
  match ws.openaiClient.CreateChatCompletion req with
  | .error err =>
    .done [Event.createChatCompletion req] ("", some (.wrap "creating completion: " err))
  | .ok resp =>
    if resp.Choices.length = 0 then
      .done [Event.createChatCompletion req] ("", some (.msg "no choices returned from OpenAI"))
    else
      match resp.Choices with
      | [] => .panicked [Event.createChatCompletion req] "index out of range [0] with length 0"
      | choice :: _ => .done [Event.createChatCompletion req] (choice.Message.Content, none)

/-- The method `WordService.GetTodaysWordWithTranslation`; `now` is the value
`time.Now()` returns. -/
def GetTodaysWordWithTranslation (ws : WordService) (now : Time) :
    Exec (String × Option GoError) :=
  let today := now.Format
  match fetchWordOfDay ws today with
  | .panicked trace text => .panicked trace text
  | .done trace (.error err) => .done trace ("", some (.wrap "fetching word of day: " err))
  | .done trace (.ok wordResponse) =>
    match translateWord ws wordResponse with
    | .panicked trace2 text => .panicked (trace ++ trace2) text
    | .done trace2 (_, some err) =>
      .done (trace ++ trace2) ("", some (.wrap "translating word: " err))
    | .done trace2 (translation, none) =>
      .done (trace ++ trace2)
        ("## 今日の中国語\n" ++ ("単語: " ++ wordResponse.Payload.WordDay.Text ++ "\n") ++ translation,
          none)

/-- Outcome of the word source that the fetch stage counts as a failure: a transport
failure, a status other than 200, a body that does not decode, or a decoded payload
whose status is not "success". -/
def fetchFails : Except GoError Response → Bool
  | .error _ => true
  | .ok resp =>
    decide (resp.StatusCode ≠ 200) ||
      (match resp.Body with
        | .error _ => true
        | .ok wordResponse => decide (wordResponse.Status ≠ "success"))

/-- Outcome of the completion service that the transform stage counts as a failure: a
failed call, or a response with no choice. -/
def completionFails : Except GoError ChatCompletionResponse → Bool
  | .error _ => true
  | .ok resp => resp.Choices.isEmpty

/-- The calls of the completion service among the actions. -/
def completionCalls : List Event → List ChatCompletionRequest
  | [] => []
  | Event.createChatCompletion req :: rest => req :: completionCalls rest
  | _ :: rest => completionCalls rest

/-- The messages sent among the actions, each with its channel. -/
def sends : List Event → List (String × String)
  | [] => []
  | Event.sendMessage channelID message :: rest => (channelID, message) :: sends rest
  | _ :: rest => sends rest

/-! ## `subscription.go`: the manager -/

/-- The interface `MessageSender`. -/
structure MessageSender where
  SendMessage : String → String → Option GoError

/-- The struct `Subscription`; `StopChan` is the number of its channel, or `none` for a
nil channel. -/
structure Subscription where
  ChannelID : String
  GuildID : String
  Time : Time
  StopChan : Option Nat
deriving DecidableEq, Repr

/-- The struct `SubscriptionManager`; the lock `mu` is held for the whole of each
method, so a method is one step. -/
structure SubscriptionManager where
  subscriptions : List (String × List Subscription)
  wordService : Option WordService
  sender : Option MessageSender

/-- Goroutine started by `go sm.scheduleDaily(channelID, nextRun, stopChan)`. -/
structure Goroutine where
  channelID : String
  nextRun : Time
  stopChan : Nat
deriving DecidableEq, Repr

/-- The manager and the runtime objects it owns: the number of channels made so far
(they are numbered from 0), the channels closed so far, and the goroutines started. -/
structure Machine where
  sm : SubscriptionManager
  chans : Nat
  closed : List Nat
  goroutines : List Goroutine

/-- Result of a method of the manager: it returns `ret` and leaves the machine `m`, or
it panics in the machine `m`. -/
inductive Outcome (α : Type) where
  | ok (m : Machine) (ret : α)
  | panic (m : Machine) (text : String)

/-- The machine a call leaves. -/
def Outcome.machine {α : Type} : Outcome α → Machine
  | .ok m _ => m
  | .panic m _ => m

/-- The text of the panic, if the call panicked. -/
def Outcome.panicText {α : Type} : Outcome α → Option String
  | .ok _ _ => none
  | .panic _ text => some text

/-- Map index `m[key]` with the comma-ok form. -/
def mapGet {α : Type} (m : List (String × α)) (key : String) : Option α :=
  (m.find? (fun e => e.1 == key)).map (fun e => e.2)

/-- The builtin `delete(m, key)`. -/
def mapDelete {α : Type} (m : List (String × α)) (key : String) : List (String × α) :=
  m.filter (fun e => !(e.1 == key))

/-- Map assignment `m[key] = val`. -/
def mapSet {α : Type} (m : List (String × α)) (key : String) (val : α) : List (String × α) :=
  (key, val) :: mapDelete m key

/-- The function `NewSubscriptionManager`, in a runtime with no channel made yet. -/
def NewSubscriptionManager (wordService : Option WordService) (sender : Option MessageSender) :
    Machine :=
  { sm := { subscriptions := [], wordService := wordService, sender := sender },
    chans := 0, closed := [], goroutines := [] }

/-- The method `SubscriptionManager.Subscribe`; `now` is the value `time.Now()` returns
in `calculateNextRun`. Indexing a map at a missing key gives the nil slice. -/
def Subscribe (m : Machine) (channelID guildID : String) (scheduledTime now : Time) :
    Outcome (Option GoError) :=
  let stopChan := m.chans
  let nextRun := calculateNextRun scheduledTime now
  let subscription : Subscription :=
    { ChannelID := channelID, GuildID := guildID, Time := scheduledTime,
      StopChan := some stopChan }
  .ok { sm := { m.sm with
                subscriptions := mapSet m.sm.subscriptions channelID
                  ((mapGet m.sm.subscriptions channelID).getD [] ++ [subscription]) },
        chans := m.chans + 1,
        closed := m.closed,
        goroutines := m.goroutines ++ [⟨channelID, nextRun, stopChan⟩] } none

/-- The builtin `close(c)`: closing a closed channel panics. -/
def closeChan (m : Machine) (c : Nat) : Outcome Unit :=
  if c ∈ m.closed then .panic m "close of closed channel"
  else .ok { m with closed := c :: m.closed } ()

/-- The loop `for _, sub := range subs` that closes every non-nil `StopChan`. -/
def closeSubs (m : Machine) : List Subscription → Outcome Unit
  | [] => .ok m ()
  | sub :: rest =>
    match sub.StopChan with
    | none => closeSubs m rest
    | some c =>
      match closeChan m c with
      | .ok m1 _ => closeSubs m1 rest
      | .panic m1 text => .panic m1 text

/-- The method `SubscriptionManager.Unsubscribe`. -/
def Unsubscribe (m : Machine) (channelID : String) : Outcome Nat :=
  match mapGet m.sm.subscriptions channelID with
  | none => .ok m 0
  | some subs =>
    match closeSubs m subs with
    | .panic m1 text => .panic m1 text
    | .ok m1 _ =>
      .ok { m1 with sm := { m1.sm with subscriptions := mapDelete m1.sm.subscriptions channelID } }
        subs.length

/-- The loop `for _, subs := range sm.subscriptions` of `Stop`. Go ranges over a map in
an order it does not specify; the entries are taken here in the order of the list. The
order decides neither whether the loop panics nor, when it returns, which channels it
has closed (`closeAll_order`); only which channels are closed before a panic depends on
it. -/
def closeAll (m : Machine) : List (String × List Subscription) → Outcome Unit
  | [] => .ok m ()
  | e :: rest =>
    match closeSubs m e.2 with
    | .ok m1 _ => closeAll m1 rest
    | .panic m1 text => .panic m1 text

/-- The method `SubscriptionManager.Stop`. -/
def Stop (m : Machine) : Outcome Unit :=
  closeAll m m.sm.subscriptions

/-- Call of the control surface of the manager. -/
inductive Call where
  | Subscribe (channelID guildID : String) (scheduledTime now : Time)
  | Unsubscribe (channelID : String)
  | Stop
deriving DecidableEq, Repr

/-- Value a call returns. -/
inductive Ret where
  | err (e : Option GoError)
  | count (n : Nat)
  | unit
deriving DecidableEq, Repr

/-- One call on the machine. -/
def step (m : Machine) : Call → Outcome Ret
  | .Subscribe channelID guildID scheduledTime now =>
    match Subscribe m channelID guildID scheduledTime now with
    | .ok m1 e => .ok m1 (.err e)
    | .panic m1 text => .panic m1 text
  | .Unsubscribe channelID =>
    match Unsubscribe m channelID with
    | .ok m1 n => .ok m1 (.count n)
    | .panic m1 text => .panic m1 text
  | .Stop =>
    match Stop m with
    | .ok m1 _ => .ok m1 .unit
    | .panic m1 text => .panic m1 text

/-- Sequence of calls, one after the other; a panic ends the run. The values returned
so far are collected in `acc`. -/
def runFrom (m : Machine) (acc : List Ret) : List Call → Outcome (List Ret)
  | [] => .ok m acc
  | c :: rest =>
    match step m c with
    | .ok m1 r => runFrom m1 (acc ++ [r]) rest
    | .panic m1 text => .panic m1 text

/-- Sequence of calls on the machine, with the values they return. -/
def run (m : Machine) (calls : List Call) : Outcome (List Ret) :=
  runFrom m [] calls

/-- Report whether the call is `Stop`. -/
def Call.isStop : Call → Bool
  | .Stop => true
  | _ => false

/-- The number of `Subscribe` calls for the channel since its last `Unsubscribe`, for a
history given latest call first. -/
def subscribedSince (channelID : String) : List Call → Nat
  | [] => 0
  | .Subscribe c _ _ _ :: earlier =>
    (if c = channelID then 1 else 0) + subscribedSince channelID earlier
  | .Unsubscribe c :: earlier => if c = channelID then 0 else subscribedSince channelID earlier
  | .Stop :: earlier => subscribedSince channelID earlier

/-- What the specification has each call return, given the calls made before it
(latest first): an `Unsubscribe` returns the number of `Subscribe` calls for its
channel since the last `Unsubscribe` of that channel. -/
def expectedFrom (history : List Call) : List Call → List Ret
  | [] => []
  | .Subscribe c g t n :: rest => .err none :: expectedFrom (.Subscribe c g t n :: history) rest
  | .Unsubscribe c :: rest =>
    .count (subscribedSince c history) :: expectedFrom (.Unsubscribe c :: history) rest
  | .Stop :: rest => .unit :: expectedFrom (.Stop :: history) rest

/-- The invariant of the map: no key holds an empty list. -/
def NoEmptyList (m : Machine) : Prop :=
  ∀ e ∈ m.sm.subscriptions, 1 ≤ e.2.length

/-! ## `subscription.go`: the task of a subscription -/

/-- The method `SubscriptionManager.sendDailyWord`; `now` is the value `time.Now()`
returns in the pipeline. -/
def sendDailyWord (sm : SubscriptionManager) (now : Time) (channelID : String) : Exec Unit :=
  match sm.wordService, sm.sender with
  | some wordService, some sender =>
    match GetTodaysWordWithTranslation wordService now with
    | .panicked trace text => .panicked trace text
    | .done trace (_, some err) =>
      .done (trace ++ [Event.log ("Failed to get today's word for channel " ++ channelID ++
        ": " ++ err.Error)]) ()
    | .done trace (translation, none) =>
      match sender.SendMessage channelID translation with
      | some err =>
        .done (trace ++ [Event.sendMessage channelID translation,
          Event.log ("Failed to send daily word to channel " ++ channelID ++ ": " ++ err.Error)]) ()
      | none => .done (trace ++ [Event.sendMessage channelID translation]) ()
  | _, _ => .done [Event.log "Word service or sender not configured"] ()

/-- What the `select` of `scheduleDaily` receives: the timer's tick, taken at the
instant `now` with `sendDailyWord` then running for `elapsed` nanoseconds, or the
close of `stopChan`. -/
inductive Wake where
  | timer (now : Time) (elapsed : Nat)
  | stop
deriving DecidableEq, Repr

/-- State of the task: blocked in `select` with the timer due at `expiry` (Unix
nanoseconds), or returned. -/
inductive Task where
  | waiting (expiry : Int)
  | exited
deriving DecidableEq, Repr

/-- One round of the loop of `scheduleDaily`: on the timer's tick the word is sent and
`timer.Reset(24 * time.Hour)` makes the timer due 24 hours after the instant of the
reset, which is the instant `sendDailyWord` returns; on the close of `stopChan` the
function returns. -/
def scheduleDailyRound (sm : SubscriptionManager) (channelID : String) : Wake → Exec Task
  | .timer now elapsed =>
    match sendDailyWord sm now channelID with
    | .panicked trace text => .panicked trace text
    | .done trace _ => .done trace (.waiting (now.UnixNano + elapsed + 24 * Hour))
  | .stop => .done [] .exited

/-- The loop `for { select { ... } }` of `scheduleDaily` over the wakes its `select`
receives; it returns the state of the task after them and the actions taken. -/
def scheduleDailyLoop (sm : SubscriptionManager) (channelID : String) :
    Task → List Wake → Exec Task
  | .exited, _ => .done [] .exited
  | .waiting expiry, [] => .done [] (.waiting expiry)
  | .waiting _, w :: rest =>
    match scheduleDailyRound sm channelID w with
    | .panicked trace text => .panicked trace text
    | .done trace task =>
      match scheduleDailyLoop sm channelID task rest with
      | .panicked trace2 text => .panicked (trace ++ trace2) text
      | .done trace2 final => .done (trace ++ trace2) final

/-- The method `SubscriptionManager.scheduleDaily`: the timer
`time.NewTimer(time.Until(nextRun))` is due at `nextRun`, then the loop runs. -/
def scheduleDaily (sm : SubscriptionManager) (channelID : String) (nextRun : Time)
    (wakes : List Wake) : Exec Task :=
  scheduleDailyLoop sm channelID (.waiting nextRun.UnixNano) wakes

/-- The channels of the subscriptions of a list that are not nil. -/
def stopChans (subs : List Subscription) : List Nat :=
  subs.filterMap (fun sub => sub.StopChan)

/-- The channels of all the subscriptions the map holds. -/
def liveChans : List (String × List Subscription) → List Nat
  | [] => []
  | e :: rest => stopChans e.2 ++ liveChans rest

/-- The channels of the map are distinct, made by this runtime and open, and every
closed channel was made by this runtime: the state in which no close can panic. -/
structure Sound (m : Machine) : Prop where
  nodup : (liveChans m.sm.subscriptions).Nodup
  made : ∀ n ∈ liveChans m.sm.subscriptions, n < m.chans
  isOpen : ∀ n ∈ liveChans m.sm.subscriptions, n ∉ m.closed
  closedMade : ∀ n ∈ m.closed, n < m.chans

/-- The length of the list the map holds for the channel, 0 when it holds none. -/
def held (m : Machine) (channelID : String) : Nat :=
  ((mapGet m.sm.subscriptions channelID).map List.length).getD 0

/-! ## Sample values -/

/-- The value `time.Parse("15:04", "09:00")` returns: 09:00 on 1 January of year 0, UTC. -/
def nineOClock : Time := Date 0 1 1 9 0 0 0 UTC

/-- The value `time.Parse("15:04", "00:00")` returns. -/
def midnight : Time := Date 0 1 1 0 0 0 0 UTC

/-- 08:00 on 4 November 2026, UTC. -/
def morning : Time := Date 2026 11 4 8 0 0 0 UTC

/-- 10:00 on 4 November 2026, UTC. -/
def forenoon : Time := Date 2026 11 4 10 0 0 0 UTC

/-- The zone table of America/New_York around 2026: Eastern Standard Time (UTC-5), then
daylight time (UTC-4) from 8 March 2026 07:00 UTC, then standard time again from
1 November 2026 06:00 UTC. -/
def NewYork : Location :=
  ⟨-18000, [⟨1772953200, -14400⟩, ⟨1793512800, -18000⟩]⟩

/-- 23:30 on 1 November 2026 in New York (04:30 UTC on 2 November), the day the clocks
go back. -/
def lateOnFallBack : Time := ⟨1793593800, 0, NewYork⟩

/-- A payload of the word source. -/
def sampleWord (status : String) : WordOfDayResponse :=
  { Status := status, Code := 200,
    Payload := { WordDay := { Date := "2026-11-04", Text := "你好", English := "hello",
                              Meaning := "hello", Romanization := "nǐ hǎo", Traditional := "你好",
                              AudioTarget := "", ImageURL := "", Samples := [] } } }

/-- A word service whose word source answers with the status code `code` and a payload
of status `status`, and whose completion service answers with the choices `choices`. -/
def sampleService (code : Int) (status : String) (choices : List String) : WordService :=
  { client := ⟨fun _ => .ok ⟨code, .ok (sampleWord status), none⟩⟩,
    openaiClient := ⟨fun _ => .ok ⟨choices.map (fun c => ⟨⟨"assistant", c⟩⟩)⟩⟩,
    prompt := "Translate" }

/-- A sender that delivers every message. -/
def sampleSender : MessageSender := ⟨fun _ _ => none⟩

/-- A manager built around the sample service and sender. -/
def sampleManager (code : Int) (status : String) (choices : List String) : SubscriptionManager :=
  { subscriptions := [], wordService := some (sampleService code status choices),
    sender := some sampleSender }

/-- A manager with a sender but no word service. -/
def managerWithoutService : SubscriptionManager :=
  { subscriptions := [], wordService := none, sender := some sampleSender }

/-- Five seconds, in nanoseconds: a time the pipeline and the dispatch may take. -/
def fiveSeconds : Nat := 5000000000

/-- The location Asia/Tokyo: Japan Standard Time (UTC+9) throughout. -/
def Tokyo : Location := ⟨32400, []⟩

/-- Half a second past 08:00 on 4 November 2026 in Tokyo (23:00 UTC the day before). -/
def morningInTokyo : Time := ⟨1793746800, 500000000, Tokyo⟩

/-- 09:00 sharp on 4 November 2026, UTC. -/
def nineSharp : Time := Date 2026 11 4 9 0 0 0 UTC

/-- The scenario of the specification: two subscriptions of the channel "C1", then two
calls of `Unsubscribe` for it. -/
def twoThenUnsubscribe : List Call :=
  [.Subscribe "C1" "G1" nineOClock morning, .Subscribe "C1" "G1" nineOClock forenoon,
    .Unsubscribe "C1", .Unsubscribe "C1"]

/-- A subscription of the channel "C1", then `Stop`, then `Unsubscribe` for "C1": the
shutdown of the manager followed by a late command for the channel. -/
def stopThenUnsubscribe : List Call :=
  [.Subscribe "C1" "G1" nineOClock morning, .Stop, .Unsubscribe "C1"]

/-- A subscription of the channel "C1", then `Stop` twice. -/
def stopTwice : List Call :=
  [.Subscribe "C1" "G1" nineOClock morning, .Stop, .Stop]

/-- 08:00 on 2 November 2026 in New York (13:00 UTC), 31 hours after the clocks went
back. -/
def dayAfterFallBack : Time := ⟨1793624400, 0, NewYork⟩

/-- 03:00 standard time on 1 November 2026 in New York (08:00 UTC), two hours after the
clocks went back. -/
def earlyOnFallBack : Time := ⟨1793520000, 0, NewYork⟩

/-- The value `time.Parse("15:04", "04:00")` returns. -/
def fourOClock : Time := Date 0 1 1 4 0 0 0 UTC

/-- 00:30 daylight time on 1 November 2026 in New York (04:30 UTC), an hour and a half
before the clocks go back. -/
def beforeFallBack : Time := ⟨1793507400, 0, NewYork⟩

/-- 00:30 standard time on 8 March 2026 in New York (05:30 UTC), an hour and a half
before the clocks go forward. -/
def beforeSpringForward : Time := ⟨1772947800, 0, NewYork⟩

/-- 00:10 daylight time on 1 November 2026 in New York (04:10 UTC), before the clocks go
back. -/
def shortlyAfterMidnight : Time := ⟨1793506200, 0, NewYork⟩

/-- The value `time.Parse("15:04", "23:30")` returns. -/
def halfPastEleven : Time := Date 0 1 1 23 30 0 0 UTC

/-! ## Calendar and clock lemmas -/

theorem yoe_bounds (doe : Int) (h0 : 0 ≤ doe) (h1 : doe < 146097) :
    0 ≤ (doe - doe / 1460 + doe / 36524 - doe / 146096) / 365 ∧
    (doe - doe / 1460 + doe / 36524 - doe / 146096) / 365 ≤ 399 := by
  omega

theorem doy_bounds (doe yoe : Int) (h0 : 0 ≤ doe) (h1 : doe < 146097)
    (hy : yoe = (doe - doe / 1460 + doe / 36524 - doe / 146096) / 365) :
    0 ≤ doe - (365 * yoe + yoe / 4 - yoe / 100) ∧
    doe - (365 * yoe + yoe / 4 - yoe / 100) ≤ 365 := by
  have hc : doe / 36524 = 0 ∨ doe / 36524 = 1 ∨ doe / 36524 = 2 ∨ doe / 36524 = 3 ∨
      doe / 36524 = 4 := by omega
  have hq : yoe / 100 = 0 ∨ yoe / 100 = 1 ∨ yoe / 100 = 2 ∨ yoe / 100 = 3 := by omega
  rcases hc with h | h | h | h | h <;> rcases hq with g | g | g | g <;> omega

/-- The date of a day count denotes that day count. -/
theorem daysFromCivil_civilFromDays (z : Int) :
    daysFromCivil (civilFromDays z).1 (civilFromDays z).2.1 (civilFromDays z).2.2 = z := by
  have hd0 : 0 ≤ z + 719468 - (z + 719468) / 146097 * 146097 := by omega
  have hd1 : z + 719468 - (z + 719468) / 146097 * 146097 < 146097 := by omega
  generalize hdoe : z + 719468 - (z + 719468) / 146097 * 146097 = doe at hd0 hd1
  have hyb := yoe_bounds doe hd0 hd1
  have hdb := doy_bounds doe _ hd0 hd1 rfl
  simp only [daysFromCivil, civilFromDays, hdoe]
  generalize (doe - doe / 1460 + doe / 36524 - doe / 146096) / 365 = yoe at hyb hdb
  generalize hdoy : doe - (365 * yoe + yoe / 4 - yoe / 100) = doy at hdb
  have hmp : 0 ≤ (5 * doy + 2) / 153 ∧ (5 * doy + 2) / 153 ≤ 11 := by omega
  generalize (5 * doy + 2) / 153 = mp at hmp
  have e1 : mp + 3 - 3 = mp := by omega
  have e2 : mp - 9 + 9 = mp := by omega
  generalize hera : (z + 719468) / 146097 = era at hdoe
  have e3 : (yoe + era * 400) / 400 = era := by omega
  have e4 : yoe + era * 400 + 1 - 1 = yoe + era * 400 := by omega
  have e5 : yoe + era * 400 - era * 400 = yoe := by omega
  split_ifs <;> simp only [e1, e2, e3, e4, e5] <;> omega

/-- The month of a day count is a month of the calendar. -/
theorem civilFromDays_month (z : Int) :
    1 ≤ (civilFromDays z).2.1 ∧ (civilFromDays z).2.1 ≤ 12 := by
  have hd0 : 0 ≤ z + 719468 - (z + 719468) / 146097 * 146097 := by omega
  have hd1 : z + 719468 - (z + 719468) / 146097 * 146097 < 146097 := by omega
  generalize hdoe : z + 719468 - (z + 719468) / 146097 * 146097 = doe at hd0 hd1
  have hdb := doy_bounds doe _ hd0 hd1 rfl
  simp only [civilFromDays, hdoe]
  generalize (doe - doe / 1460 + doe / 36524 - doe / 146096) / 365 = yoe at hdb
  generalize hdoy : doe - (365 * yoe + yoe / 4 - yoe / 100) = doy at hdb
  have hmp : 0 ≤ (5 * doy + 2) / 153 ∧ (5 * doy + 2) / 153 ≤ 11 := by omega
  generalize (5 * doy + 2) / 153 = mp at hmp
  split_ifs <;> omega

theorem norm_of_inRange (hi lo base : Int) (h0 : 0 ≤ lo) (h1 : lo < base) :
    norm hi lo base = (hi, lo) := by
  unfold norm
  have h2 : ¬ lo < 0 := by omega
  have h3 : ¬ lo ≥ base := by omega
  simp [h2, h3]

theorem Hour_range (t : Time) : 0 ≤ t.Hour ∧ t.Hour < 24 := by
  unfold Time.Hour; omega

theorem Minute_range (t : Time) : 0 ≤ t.Minute ∧ t.Minute < 60 := by
  unfold Time.Minute; omega

/-- The candidate of `calculateNextRun`, with the calendar round trip and the carries
resolved: only the zone correction of `time.Date` remains. -/
theorem today_eq (scheduledTime now : Time) :
    Date now.Year now.Month now.Day scheduledTime.Hour scheduledTime.Minute 0 0 now.Location =
      { sec :=
          if (now.loc.lookup (wallOfToday scheduledTime now)).offset ≠ 0 then
            wallOfToday scheduledTime now -
              (if wallOfToday scheduledTime now -
                      (now.loc.lookup (wallOfToday scheduledTime now)).offset <
                    (now.loc.lookup (wallOfToday scheduledTime now)).start ∨
                  wallOfToday scheduledTime now -
                      (now.loc.lookup (wallOfToday scheduledTime now)).offset ≥
                    (now.loc.lookup (wallOfToday scheduledTime now)).finish
                then (now.loc.lookup (wallOfToday scheduledTime now -
                  (now.loc.lookup (wallOfToday scheduledTime now)).offset)).offset
                else (now.loc.lookup (wallOfToday scheduledTime now)).offset)
          else wallOfToday scheduledTime now,
        nsec := 0, loc := now.loc } := by
  have hm := civilFromDays_month (now.abs / 86400)
  have hH := Hour_range scheduledTime
  have hM := Minute_range scheduledTime
  have n1 : norm now.Year (now.Month - 1) 12 = (now.Year, now.Month - 1) :=
    norm_of_inRange _ _ _ (by unfold Time.Month; omega) (by unfold Time.Month; omega)
  have n2 : norm (0 : Int) 0 1000000000 = (0, 0) := norm_of_inRange _ _ _ (by omega) (by omega)
  have n3 : norm scheduledTime.Minute 0 60 = (scheduledTime.Minute, 0) :=
    norm_of_inRange _ _ _ (by omega) (by omega)
  have n4 : norm scheduledTime.Hour scheduledTime.Minute 60 =
      (scheduledTime.Hour, scheduledTime.Minute) := norm_of_inRange _ _ _ hM.1 hM.2
  have n5 : norm now.Day scheduledTime.Hour 24 = (now.Day, scheduledTime.Hour) :=
    norm_of_inRange _ _ _ hH.1 hH.2
  have hd : daysFromCivil now.Year (now.Month - 1 + 1) now.Day = now.abs / 86400 := by
    rw [Int.sub_add_cancel]
    exact daysFromCivil_civilFromDays (now.abs / 86400)
  simp only [Date, n1, n2, n3, n4, n5, hd, Time.Location, wallOfToday]


theorem Add_day (t : Time) (h0 : 0 ≤ t.nsec) (h1 : t.nsec < 1000000000) :
    t.Add (24 * Hour) = { t with sec := t.sec + 86400 } := by
  have e1 : Int.tdiv (24 * Hour) 1000000000 = 86400 := by decide
  have e2 : Int.tmod (24 * Hour) 1000000000 = 0 := by decide
  unfold Time.Add
  simp only [e1, e2, Int.add_zero]
  have h2 : ¬ t.nsec ≥ 1000000000 := by omega
  have h3 : ¬ t.nsec < 0 := by omega
  simp [h2, h3]

theorem After_iff (t u : Time) (ht : t.nsec = 0) (hu : 0 ≤ u.nsec ∧ u.nsec < 1000000000) :
    t.After u = true ↔ u.UnixNano < t.UnixNano := by
  unfold Time.After Time.UnixNano
  simp only [Bool.or_eq_true, Bool.and_eq_true, decide_eq_true_eq, ht]
  omega

/-- The candidate has no nanoseconds and the location of `now`. -/
theorem today_fields (scheduledTime now : Time) :
    (Date now.Year now.Month now.Day scheduledTime.Hour scheduledTime.Minute 0 0
      now.Location).nsec = 0 ∧
    (Date now.Year now.Month now.Day scheduledTime.Hour scheduledTime.Minute 0 0
      now.Location).loc = now.loc := by
  rw [today_eq]
  exact ⟨rfl, rfl⟩

/-- The two branches of `calculateNextRun`, by the order of the instants. -/
theorem nextRun_branch (scheduledTime now : Time)
    (hn : 0 ≤ now.nsec ∧ now.nsec < 1000000000) :
    (now.UnixNano <
        (Date now.Year now.Month now.Day scheduledTime.Hour scheduledTime.Minute 0 0
          now.Location).UnixNano ∧
      calculateNextRun scheduledTime now =
        Date now.Year now.Month now.Day scheduledTime.Hour scheduledTime.Minute 0 0
          now.Location) ∨
    ((Date now.Year now.Month now.Day scheduledTime.Hour scheduledTime.Minute 0 0
          now.Location).UnixNano ≤ now.UnixNano ∧
      calculateNextRun scheduledTime now =
        { Date now.Year now.Month now.Day scheduledTime.Hour scheduledTime.Minute 0 0
            now.Location with
          sec := (Date now.Year now.Month now.Day scheduledTime.Hour scheduledTime.Minute 0 0
            now.Location).sec + 86400 }) := by
  obtain ⟨hns, -⟩ := today_fields scheduledTime now
  have hafter := After_iff _ now hns hn
  by_cases h : (Date now.Year now.Month now.Day scheduledTime.Hour scheduledTime.Minute 0 0
      now.Location).After now = true
  · left
    refine ⟨hafter.mp h, ?_⟩
    unfold calculateNextRun
    dsimp only
    rw [if_pos h]
  · right
    refine ⟨by rw [hafter] at h; omega, ?_⟩
    unfold calculateNextRun
    dsimp only
    rw [if_neg h, Add_day _ (by omega) (by omega)]

/-- When the clocks are not set back between `now` and the candidate, the instant
returned lies in `(now, now + 24h]`. -/
theorem nextRun_interval (scheduledTime now : Time)
    (hn : 0 ≤ now.nsec ∧ now.nsec < 1000000000)
    (hafter :
      now.UnixNano <
          (Date now.Year now.Month now.Day scheduledTime.Hour scheduledTime.Minute 0 0
            now.Location).UnixNano →
        (now.loc.lookup now.sec).offset ≤ resolvedOffset scheduledTime now)
    (hbefore :
      (Date now.Year now.Month now.Day scheduledTime.Hour scheduledTime.Minute 0 0
          now.Location).UnixNano ≤ now.UnixNano →
        resolvedOffset scheduledTime now ≤ (now.loc.lookup now.sec).offset) :
    now.UnixNano < (calculateNextRun scheduledTime now).UnixNano ∧
    (calculateNextRun scheduledTime now).UnixNano ≤ now.UnixNano + 24 * Hour := by
  have hH := Hour_range scheduledTime
  have hM := Minute_range scheduledTime
  have hday : (24 * Hour : Int) = 86400000000000 := by decide
  obtain ⟨hns, -⟩ := today_fields scheduledTime now
  rcases nextRun_branch scheduledTime now hn with ⟨h, hR⟩ | ⟨h, hR⟩
  · have ho := hafter h
    rw [hR]
    unfold resolvedOffset at ho
    generalize Date now.Year now.Month now.Day scheduledTime.Hour scheduledTime.Minute 0 0
      now.Location = cand at *
    simp only [Time.UnixNano, Time.abs, hns, hday, wallOfToday] at h ho ⊢
    generalize scheduledTime.Hour = H at *
    generalize scheduledTime.Minute = M at *
    refine ⟨h, ?_⟩
    omega
  · have ho := hbefore h
    rw [hR]
    unfold resolvedOffset at ho
    generalize Date now.Year now.Month now.Day scheduledTime.Hour scheduledTime.Minute 0 0
      now.Location = cand at *
    simp only [Time.UnixNano, Time.abs, hns, hday, wallOfToday] at h ho ⊢
    generalize scheduledTime.Hour = H at *
    generalize scheduledTime.Minute = M at *
    refine ⟨?_, ?_⟩ <;> omega

/-- When the offset in force at the instant returned is the one `time.Date` resolved the
candidate with, the instant returned shows the hour and minute of `scheduledTime`. -/
theorem nextRun_clock (scheduledTime now : Time)
    (hn : 0 ≤ now.nsec ∧ now.nsec < 1000000000)
    (hret : (now.loc.lookup (calculateNextRun scheduledTime now).sec).offset =
      resolvedOffset scheduledTime now) :
    (calculateNextRun scheduledTime now).Hour = scheduledTime.Hour ∧
    (calculateNextRun scheduledTime now).Minute = scheduledTime.Minute := by
  have hH := Hour_range scheduledTime
  have hM := Minute_range scheduledTime
  obtain ⟨-, hloc⟩ := today_fields scheduledTime now
  unfold resolvedOffset at hret
  rcases nextRun_branch scheduledTime now hn with ⟨-, hR⟩ | ⟨-, hR⟩
  · rw [hR] at hret ⊢
    generalize Date now.Year now.Month now.Day scheduledTime.Hour scheduledTime.Minute 0 0
      now.Location = cand at *
    simp only [wallOfToday] at hret
    generalize scheduledTime.Hour = H at *
    generalize scheduledTime.Minute = M at *
    simp only [Time.Hour, Time.Minute, Time.abs, hloc] at hret ⊢
    refine ⟨?_, ?_⟩ <;> omega
  · rw [hR] at hret ⊢
    generalize Date now.Year now.Month now.Day scheduledTime.Hour scheduledTime.Minute 0 0
      now.Location = cand at *
    simp only [wallOfToday] at hret
    generalize scheduledTime.Hour = H at *
    generalize scheduledTime.Minute = M at *
    simp only [Time.Hour, Time.Minute, Time.abs, hloc] at hret ⊢
    refine ⟨?_, ?_⟩ <;> omega

/-- The candidate in a location that keeps the offset `off` within 24 hours and the size
of the offset either side of `now`. -/
theorem today_window (scheduledTime now : Time) (off b : Int)
    (hb : -b ≤ off ∧ off ≤ b)
    (hfix : ∀ s, now.sec - 86400 - b ≤ s → s ≤ now.sec + 86400 + b →
      (now.loc.lookup s).offset = off) :
    Date now.Year now.Month now.Day scheduledTime.Hour scheduledTime.Minute 0 0 now.Location =
      { sec := wallOfToday scheduledTime now - off, nsec := 0, loc := now.loc } := by
  have hH := Hour_range scheduledTime
  have hM := Minute_range scheduledTime
  have hnabs : now.abs = now.sec + off := by
    unfold Time.abs; rw [hfix now.sec (by omega) (by omega)]
  have h1 : (now.loc.lookup (wallOfToday scheduledTime now)).offset = off :=
    hfix _ (by unfold wallOfToday; omega) (by unfold wallOfToday; omega)
  have h2 : (now.loc.lookup (wallOfToday scheduledTime now - off)).offset = off :=
    hfix _ (by unfold wallOfToday; omega) (by unfold wallOfToday; omega)
  rw [today_eq]
  simp only [h1, h2, ite_self]
  by_cases h : off = 0
  · simp [h]
  · simp [h]

/-- In a location that keeps one offset within 24 hours and the size of the offset either
side of `now`, a location with a fixed offset among them, `time.Date` resolves the
candidate with that offset and the instant returned has it too, so that the conditions
of `nextRun_interval` and `nextRun_clock` are met. -/
theorem offsets_of_window (scheduledTime now : Time) (off b : Int)
    (hn : 0 ≤ now.nsec ∧ now.nsec < 1000000000)
    (hb : -b ≤ off ∧ off ≤ b)
    (hfix : ∀ s, now.sec - 86400 - b ≤ s → s ≤ now.sec + 86400 + b →
      (now.loc.lookup s).offset = off) :
    (now.loc.lookup now.sec).offset = off ∧
    resolvedOffset scheduledTime now = off ∧
    (now.loc.lookup (calculateNextRun scheduledTime now).sec).offset = off := by
  have hH := Hour_range scheduledTime
  have hM := Minute_range scheduledTime
  have hnow : (now.loc.lookup now.sec).offset = off := hfix now.sec (by omega) (by omega)
  have hnabs : now.abs = now.sec + off := by unfold Time.abs; rw [hnow]
  have hC := today_window scheduledTime now off b hb hfix
  refine ⟨hnow, ?_, ?_⟩
  · unfold resolvedOffset
    rw [hC]
    exact Int.sub_sub_self _ _
  · unfold calculateNextRun
    simp only [hC]
    split
    · exact hfix _ (by simp only [wallOfToday, hnabs]; omega)
        (by simp only [wallOfToday, hnabs]; omega)
    · rename_i hafter
      rw [After_iff _ _ rfl hn] at hafter
      rw [Add_day _ (by simp) (by simp)]
      simp only [Time.UnixNano] at hafter
      exact hfix _ (by simp only [wallOfToday, hnabs]; omega)
        (by simp only [wallOfToday, hnabs] at hafter ⊢; omega)

/-- C1 (amended): the instant `calculateNextRun` returns lies in `(now, now + 24h]`
whenever the clocks are not set back between `now` and the candidate, that is, the UTC
offset `time.Date` resolves the candidate with is no less than the offset in force at
`now` when the candidate is after `now`, and no more when it is not; and its local hour
and minute are those of `scheduledTime` whenever the UTC offset in force at the instant
returned is the one `time.Date` resolved the candidate with. Nothing else is asked of
the location. -/
theorem calculateNextRun_window (scheduledTime now : Time)
    (hn : 0 ≤ now.nsec ∧ now.nsec < 1000000000) :
    ((now.UnixNano <
          (Date now.Year now.Month now.Day scheduledTime.Hour scheduledTime.Minute 0 0
            now.Location).UnixNano →
        (now.loc.lookup now.sec).offset ≤ resolvedOffset scheduledTime now) →
      ((Date now.Year now.Month now.Day scheduledTime.Hour scheduledTime.Minute 0 0
          now.Location).UnixNano ≤ now.UnixNano →
        resolvedOffset scheduledTime now ≤ (now.loc.lookup now.sec).offset) →
      now.UnixNano < (calculateNextRun scheduledTime now).UnixNano ∧
      (calculateNextRun scheduledTime now).UnixNano ≤ now.UnixNano + 24 * Hour) ∧
    ((now.loc.lookup (calculateNextRun scheduledTime now).sec).offset =
        resolvedOffset scheduledTime now →
      (calculateNextRun scheduledTime now).Hour = scheduledTime.Hour ∧
      (calculateNextRun scheduledTime now).Minute = scheduledTime.Minute) :=
  ⟨nextRun_interval scheduledTime now hn, nextRun_clock scheduledTime now hn⟩

/-- C1 (amended), witness: half a second past 08:00 in Tokyo with the schedule 09:00;
08:00 in New York on the day after the clocks went back, with the schedule 09:00; 03:00
in New York two hours after the clocks went back, with the schedule 04:00; 00:30 in New
York before the clocks go forward, with the schedule 09:00 of the same day; and, for the
hour and minute alone, 00:30 in New York before the clocks go back, with the schedule
09:00 of the same day. -/
theorem calculateNextRun_window_witness :
    ((0 ≤ morningInTokyo.nsec ∧ morningInTokyo.nsec < 1000000000) ∧
      (morningInTokyo.UnixNano <
          (Date morningInTokyo.Year morningInTokyo.Month morningInTokyo.Day nineOClock.Hour
            nineOClock.Minute 0 0 morningInTokyo.Location).UnixNano →
        (morningInTokyo.loc.lookup morningInTokyo.sec).offset ≤ resolvedOffset nineOClock morningInTokyo) ∧
      ((Date morningInTokyo.Year morningInTokyo.Month morningInTokyo.Day nineOClock.Hour
            nineOClock.Minute 0 0 morningInTokyo.Location).UnixNano ≤
          morningInTokyo.UnixNano →
        resolvedOffset nineOClock morningInTokyo ≤ (morningInTokyo.loc.lookup morningInTokyo.sec).offset) ∧
      (morningInTokyo.loc.lookup (calculateNextRun nineOClock morningInTokyo).sec).offset =
        resolvedOffset nineOClock morningInTokyo ∧
      (morningInTokyo.UnixNano < (calculateNextRun nineOClock morningInTokyo).UnixNano ∧
        (calculateNextRun nineOClock morningInTokyo).UnixNano ≤ morningInTokyo.UnixNano + 24 * Hour) ∧
      ((calculateNextRun nineOClock morningInTokyo).Hour = nineOClock.Hour ∧
        (calculateNextRun nineOClock morningInTokyo).Minute = nineOClock.Minute)) ∧
    ((0 ≤ dayAfterFallBack.nsec ∧ dayAfterFallBack.nsec < 1000000000) ∧
      (dayAfterFallBack.UnixNano <
          (Date dayAfterFallBack.Year dayAfterFallBack.Month dayAfterFallBack.Day nineOClock.Hour
            nineOClock.Minute 0 0 dayAfterFallBack.Location).UnixNano →
        (dayAfterFallBack.loc.lookup dayAfterFallBack.sec).offset ≤ resolvedOffset nineOClock dayAfterFallBack) ∧
      ((Date dayAfterFallBack.Year dayAfterFallBack.Month dayAfterFallBack.Day nineOClock.Hour
            nineOClock.Minute 0 0 dayAfterFallBack.Location).UnixNano ≤
          dayAfterFallBack.UnixNano →
        resolvedOffset nineOClock dayAfterFallBack ≤ (dayAfterFallBack.loc.lookup dayAfterFallBack.sec).offset) ∧
      (dayAfterFallBack.loc.lookup (calculateNextRun nineOClock dayAfterFallBack).sec).offset =
        resolvedOffset nineOClock dayAfterFallBack ∧
      (dayAfterFallBack.UnixNano < (calculateNextRun nineOClock dayAfterFallBack).UnixNano ∧
        (calculateNextRun nineOClock dayAfterFallBack).UnixNano ≤ dayAfterFallBack.UnixNano + 24 * Hour) ∧
      ((calculateNextRun nineOClock dayAfterFallBack).Hour = nineOClock.Hour ∧
        (calculateNextRun nineOClock dayAfterFallBack).Minute = nineOClock.Minute)) ∧
    ((0 ≤ earlyOnFallBack.nsec ∧ earlyOnFallBack.nsec < 1000000000) ∧
      (earlyOnFallBack.UnixNano <
          (Date earlyOnFallBack.Year earlyOnFallBack.Month earlyOnFallBack.Day fourOClock.Hour
            fourOClock.Minute 0 0 earlyOnFallBack.Location).UnixNano →
        (earlyOnFallBack.loc.lookup earlyOnFallBack.sec).offset ≤ resolvedOffset fourOClock earlyOnFallBack) ∧
      ((Date earlyOnFallBack.Year earlyOnFallBack.Month earlyOnFallBack.Day fourOClock.Hour
            fourOClock.Minute 0 0 earlyOnFallBack.Location).UnixNano ≤
          earlyOnFallBack.UnixNano →
        resolvedOffset fourOClock earlyOnFallBack ≤ (earlyOnFallBack.loc.lookup earlyOnFallBack.sec).offset) ∧
      (earlyOnFallBack.loc.lookup (calculateNextRun fourOClock earlyOnFallBack).sec).offset =
        resolvedOffset fourOClock earlyOnFallBack ∧
      (earlyOnFallBack.UnixNano < (calculateNextRun fourOClock earlyOnFallBack).UnixNano ∧
        (calculateNextRun fourOClock earlyOnFallBack).UnixNano ≤ earlyOnFallBack.UnixNano + 24 * Hour) ∧
      ((calculateNextRun fourOClock earlyOnFallBack).Hour = fourOClock.Hour ∧
        (calculateNextRun fourOClock earlyOnFallBack).Minute = fourOClock.Minute)) ∧
    ((0 ≤ beforeSpringForward.nsec ∧ beforeSpringForward.nsec < 1000000000) ∧
      (beforeSpringForward.UnixNano <
          (Date beforeSpringForward.Year beforeSpringForward.Month beforeSpringForward.Day nineOClock.Hour
            nineOClock.Minute 0 0 beforeSpringForward.Location).UnixNano →
        (beforeSpringForward.loc.lookup beforeSpringForward.sec).offset ≤ resolvedOffset nineOClock beforeSpringForward) ∧
      ((Date beforeSpringForward.Year beforeSpringForward.Month beforeSpringForward.Day nineOClock.Hour
            nineOClock.Minute 0 0 beforeSpringForward.Location).UnixNano ≤
          beforeSpringForward.UnixNano →
        resolvedOffset nineOClock beforeSpringForward ≤ (beforeSpringForward.loc.lookup beforeSpringForward.sec).offset) ∧
      (beforeSpringForward.loc.lookup (calculateNextRun nineOClock beforeSpringForward).sec).offset =
        resolvedOffset nineOClock beforeSpringForward ∧
      (beforeSpringForward.UnixNano < (calculateNextRun nineOClock beforeSpringForward).UnixNano ∧
        (calculateNextRun nineOClock beforeSpringForward).UnixNano ≤ beforeSpringForward.UnixNano + 24 * Hour) ∧
      ((calculateNextRun nineOClock beforeSpringForward).Hour = nineOClock.Hour ∧
        (calculateNextRun nineOClock beforeSpringForward).Minute = nineOClock.Minute)) ∧
    ((0 ≤ beforeFallBack.nsec ∧ beforeFallBack.nsec < 1000000000) ∧
      (beforeFallBack.loc.lookup (calculateNextRun nineOClock beforeFallBack).sec).offset =
        resolvedOffset nineOClock beforeFallBack ∧
      ((calculateNextRun nineOClock beforeFallBack).Hour = nineOClock.Hour ∧
        (calculateNextRun nineOClock beforeFallBack).Minute = nineOClock.Minute)) :=
  ⟨⟨by decide, by decide, by decide, by decide,
      (calculateNextRun_window nineOClock morningInTokyo (by decide)).1 (by decide) (by decide),
      (calculateNextRun_window nineOClock morningInTokyo (by decide)).2 (by decide)⟩,
    ⟨by decide, by decide, by decide, by decide,
      (calculateNextRun_window nineOClock dayAfterFallBack (by decide)).1 (by decide) (by decide),
      (calculateNextRun_window nineOClock dayAfterFallBack (by decide)).2 (by decide)⟩,
    ⟨by decide, by decide, by decide, by decide,
      (calculateNextRun_window fourOClock earlyOnFallBack (by decide)).1 (by decide) (by decide),
      (calculateNextRun_window fourOClock earlyOnFallBack (by decide)).2 (by decide)⟩,
    ⟨by decide, by decide, by decide, by decide,
      (calculateNextRun_window nineOClock beforeSpringForward (by decide)).1 (by decide) (by decide),
      (calculateNextRun_window nineOClock beforeSpringForward (by decide)).2 (by decide)⟩,
    ⟨by decide, by decide,
      (calculateNextRun_window nineOClock beforeFallBack (by decide)).2 (by decide)⟩⟩

/-- Counterexample of C1: at 23:30 in New York on 1 November 2026, the day the clocks go
back, with the schedule 00:00. The candidate is 00:00 daylight time of that day, which
is not after now; 24 hours later it is 23:00 standard time of the same day. The instant
returned is half an hour before now and its local hour is 23, not 0. -/
theorem calculateNextRun_fall_back :
    calculateNextRun midnight lateOnFallBack = ⟨1793592000, 0, NewYork⟩ ∧
    lateOnFallBack.UnixNano - (calculateNextRun midnight lateOnFallBack).UnixNano =
      1800 * Second ∧
    ¬ (lateOnFallBack.UnixNano < (calculateNextRun midnight lateOnFallBack).UnixNano) ∧
    (calculateNextRun midnight lateOnFallBack).Hour = 23 ∧
    midnight.Hour = 0 ∧
    ¬ (lateOnFallBack.UnixNano < (calculateNextRun midnight lateOnFallBack).UnixNano ∧
      (calculateNextRun midnight lateOnFallBack).UnixNano ≤ lateOnFallBack.UnixNano + 24 * Hour ∧
      (calculateNextRun midnight lateOnFallBack).Hour = midnight.Hour ∧
      (calculateNextRun midnight lateOnFallBack).Minute = midnight.Minute) := by
  decide

/-- With the clocks set back between `now` and the candidate, the hour and minute can be
right and the instant returned still be more than 24 hours away: at 00:10 in New York on
1 November 2026, before the clocks go back, with the schedule 23:30, the instant
returned is 23:30 of that day, 24 hours and 20 minutes after `now`. -/
theorem calculateNextRun_long_day :
    (calculateNextRun halfPastEleven shortlyAfterMidnight).UnixNano -
        shortlyAfterMidnight.UnixNano = 24 * Hour + 1200 * Second ∧
    (calculateNextRun halfPastEleven shortlyAfterMidnight).Hour = 23 ∧
    (calculateNextRun halfPastEleven shortlyAfterMidnight).Minute = 30 ∧
    resolvedOffset halfPastEleven shortlyAfterMidnight = -18000 ∧
    (NewYork.lookup shortlyAfterMidnight.sec).offset = -14400 := by
  decide

/-- C2: with `candidate` the time `time.Date` gives for the date of `now`, the hour and
minute of `scheduledTime` and zero seconds in the location of `now`, `calculateNextRun`
returns `candidate` when it is strictly after `now`, and `candidate` plus 24 hours
otherwise, also when `candidate` is `now` itself. With the schedule 09:00, at 08:00 it
returns 09:00 of the same day and at 10:00 it returns 09:00 of the next day. -/
theorem calculateNextRun_candidate (scheduledTime now : Time)
    (hn : 0 ≤ now.nsec ∧ now.nsec < 1000000000) :
    (now.UnixNano <
        (Date now.Year now.Month now.Day scheduledTime.Hour scheduledTime.Minute 0 0
          now.Location).UnixNano →
      calculateNextRun scheduledTime now =
        Date now.Year now.Month now.Day scheduledTime.Hour scheduledTime.Minute 0 0
          now.Location) ∧
    ((Date now.Year now.Month now.Day scheduledTime.Hour scheduledTime.Minute 0 0
          now.Location).UnixNano ≤ now.UnixNano →
      calculateNextRun scheduledTime now =
        (Date now.Year now.Month now.Day scheduledTime.Hour scheduledTime.Minute 0 0
          now.Location).Add (24 * Hour) ∧
      (calculateNextRun scheduledTime now).UnixNano =
        (Date now.Year now.Month now.Day scheduledTime.Hour scheduledTime.Minute 0 0
          now.Location).UnixNano + 24 * Hour ∧
      (calculateNextRun scheduledTime now).loc = now.loc) ∧
    calculateNextRun nineOClock morning = Date 2026 11 4 9 0 0 0 UTC ∧
    calculateNextRun nineOClock forenoon = Date 2026 11 5 9 0 0 0 UTC ∧
    calculateNextRun nineOClock nineSharp = Date 2026 11 5 9 0 0 0 UTC := by
  have hnsec : (Date now.Year now.Month now.Day scheduledTime.Hour scheduledTime.Minute 0 0
      now.Location).nsec = 0 := by rw [today_eq]
  have hloc : (Date now.Year now.Month now.Day scheduledTime.Hour scheduledTime.Minute 0 0
      now.Location).loc = now.loc := by rw [today_eq]
  have hafter := After_iff _ now hnsec hn
  have hday : (24 * Hour : Int) = 86400000000000 := by decide
  refine ⟨?_, ?_, by decide, by decide, by decide⟩
  · intro h
    unfold calculateNextRun
    dsimp only
    rw [if_pos (hafter.mpr h)]
  · intro h
    have hnot : ¬ (Date now.Year now.Month now.Day scheduledTime.Hour scheduledTime.Minute 0 0
        now.Location).After now = true := by
      rw [hafter]; omega
    have hcalc : calculateNextRun scheduledTime now =
        (Date now.Year now.Month now.Day scheduledTime.Hour scheduledTime.Minute 0 0
          now.Location).Add (24 * Hour) := by
      unfold calculateNextRun
      dsimp only
      rw [if_neg hnot]
    refine ⟨hcalc, ?_, ?_⟩
    · rw [hcalc, Add_day _ (by omega) (by omega)]
      simp only [Time.UnixNano, hday]
      omega
    · rw [hcalc, Add_day _ (by omega) (by omega)]
      exact hloc

/-- Witness of C2: the schedule 09:00 at 08:00, and at 09:00 sharp. -/
theorem calculateNextRun_candidate_witness :
    (0 ≤ morning.nsec ∧ morning.nsec < 1000000000) ∧
    calculateNextRun nineOClock morning =
      Date morning.Year morning.Month morning.Day nineOClock.Hour nineOClock.Minute 0 0
        morning.Location ∧
    (calculateNextRun nineOClock nineSharp).UnixNano = nineSharp.UnixNano + 24 * Hour :=
  ⟨by decide,
    (calculateNextRun_candidate nineOClock morning (by decide)).1 (by decide),
    (((calculateNextRun_candidate nineOClock nineSharp (by decide)).2.1 (by decide)).2.1).trans
      (by decide)⟩

/-! ## The word pipeline -/

theorem completionCalls_closeBody (resp : Response) : completionCalls (closeBody resp) = [] := by
  unfold closeBody
  cases resp.Close <;> rfl

theorem sends_closeBody (resp : Response) : sends (closeBody resp) = [] := by
  unfold closeBody
  cases resp.Close <;> rfl

theorem sends_append (a b : List Event) : sends (a ++ b) = sends a ++ sends b := by
  induction a with
  | nil => rfl
  | cons e t ih => cases e <;> simp [sends, ih]

/-- The fetch stage returns; it calls neither the completion service nor the sender. -/
theorem fetchWordOfDay_done (ws : WordService) (date : String) :
    ∃ trace val, fetchWordOfDay ws date = .done trace val ∧ completionCalls trace = [] ∧
      sends trace = [] := by
  unfold fetchWordOfDay
  dsimp only
  split
  · exact ⟨_, _, rfl, rfl, rfl⟩
  · split
    · exact ⟨_, _, rfl, by simp [completionCalls, completionCalls_closeBody],
        by simp [sends, sends_closeBody]⟩
    · split
      · exact ⟨_, _, rfl, by simp [completionCalls, completionCalls_closeBody],
          by simp [sends, sends_closeBody]⟩
      · split
        · exact ⟨_, _, rfl, by simp [completionCalls, completionCalls_closeBody],
            by simp [sends, sends_closeBody]⟩
        · exact ⟨_, _, rfl, by simp [completionCalls, completionCalls_closeBody],
            by simp [sends, sends_closeBody]⟩

/-- A failing outcome of the word source makes the fetch stage return an error. -/
theorem fetchWordOfDay_fails (ws : WordService) (date : String)
    (h : fetchFails (ws.client.Do (ChineseClass101URL ++ date)) = true) :
    ∃ trace cause, fetchWordOfDay ws date = .done trace (.error cause) ∧
      completionCalls trace = [] := by
  unfold fetchWordOfDay
  dsimp only
  split
  · exact ⟨_, _, rfl, rfl⟩
  · rename_i resp hdo
    split
    · exact ⟨_, _, rfl, by simp [completionCalls, completionCalls_closeBody]⟩
    · rename_i hcode
      split
      · exact ⟨_, _, rfl, by simp [completionCalls, completionCalls_closeBody]⟩
      · rename_i w hbody
        split
        · exact ⟨_, _, rfl, by simp [completionCalls, completionCalls_closeBody]⟩
        · rename_i hstatus
          exfalso
          rw [hdo] at h
          simp only [fetchFails, hbody, StatusOK] at h hcode
          simp_all

/-- A successful outcome of the word source makes the fetch stage return the payload. -/
theorem fetchWordOfDay_ok (ws : WordService) (date : String) (resp : Response)
    (w : WordOfDayResponse) (hdo : ws.client.Do (ChineseClass101URL ++ date) = .ok resp)
    (hcode : resp.StatusCode = 200) (hbody : resp.Body = .ok w) (hstatus : w.Status = "success") :
    fetchWordOfDay ws date =
      .done (Event.httpDo (ChineseClass101URL ++ date) :: closeBody resp) (.ok w) := by
  unfold fetchWordOfDay
  simp [hdo, hcode, hbody, hstatus, StatusOK]

/-- The transform stage returns: the first choice is read only from a response that
has one. -/
theorem translateWord_done (ws : WordService) (w : WordOfDayResponse) :
    ∃ val, translateWord ws w = .done [Event.createChatCompletion (completionRequest ws w)] val := by
  unfold translateWord
  dsimp only
  split
  · exact ⟨_, rfl⟩
  · rename_i resp hcall
    cases hc : resp.Choices with
    | nil => exact ⟨("", some (.msg "no choices returned from OpenAI")), by simp⟩
    | cons c rest => exact ⟨(c.Message.Content, none), by simp⟩

theorem translateWord_fails (ws : WordService) (w : WordOfDayResponse)
    (h : completionFails (ws.openaiClient.CreateChatCompletion (completionRequest ws w)) = true) :
    ∃ cause, translateWord ws w =
      .done [Event.createChatCompletion (completionRequest ws w)] ("", some cause) := by
  unfold translateWord
  dsimp only
  split
  · exact ⟨_, rfl⟩
  · rename_i resp hcall
    rw [hcall] at h
    simp only [completionFails, List.isEmpty_iff] at h
    simp [h]

theorem translateWord_ok (ws : WordService) (w : WordOfDayResponse)
    (resp : ChatCompletionResponse) (choice : ChatCompletionChoice)
    (rest : List ChatCompletionChoice)
    (hcall : ws.openaiClient.CreateChatCompletion (completionRequest ws w) = .ok resp)
    (hchoices : resp.Choices = choice :: rest) :
    translateWord ws w =
      .done [Event.createChatCompletion (completionRequest ws w)] (choice.Message.Content, none) := by
  unfold translateWord
  simp [hcall, hchoices]

/-- The pipeline returns, and it never calls the sender. -/
theorem GetTodaysWordWithTranslation_done (ws : WordService) (now : Time) :
    ∃ trace val, GetTodaysWordWithTranslation ws now = .done trace val ∧ sends trace = [] := by
  obtain ⟨t1, v1, h1, -, hs1⟩ := fetchWordOfDay_done ws now.Format
  unfold GetTodaysWordWithTranslation
  simp only [h1]
  cases v1 with
  | error err => exact ⟨_, _, rfl, hs1⟩
  | ok w =>
    obtain ⟨v2, h2⟩ := translateWord_done ws w
    simp only [h2]
    obtain ⟨tr, e⟩ := v2
    cases e with
    | none => exact ⟨_, _, rfl, by simp [sends_append, hs1, sends]⟩
    | some err => exact ⟨_, _, rfl, by simp [sends_append, hs1, sends]⟩

/-- The pipeline on a successful fetch and a completion response with a first choice. -/
theorem GetTodaysWordWithTranslation_ok (ws : WordService) (now : Time)
    (resp : Response) (w : WordOfDayResponse) (completion : ChatCompletionResponse)
    (choice : ChatCompletionChoice) (rest : List ChatCompletionChoice)
    (hdo : ws.client.Do (ChineseClass101URL ++ now.Format) = .ok resp)
    (hcode : resp.StatusCode = 200) (hbody : resp.Body = .ok w) (hstatus : w.Status = "success")
    (hcall : ws.openaiClient.CreateChatCompletion (completionRequest ws w) = .ok completion)
    (hchoices : completion.Choices = choice :: rest) :
    GetTodaysWordWithTranslation ws now =
      .done ((Event.httpDo (ChineseClass101URL ++ now.Format) :: closeBody resp) ++
          [Event.createChatCompletion (completionRequest ws w)])
        ("## 今日の中国語\n" ++ ("単語: " ++ w.Payload.WordDay.Text ++ "\n") ++
          choice.Message.Content, none) := by
  unfold GetTodaysWordWithTranslation
  simp only [fetchWordOfDay_ok ws now.Format resp w hdo hcode hbody hstatus,
    translateWord_ok ws w completion choice rest hcall hchoices]

/-- C5: when the word source fails (transport failure, status other than 200, body that
does not decode, or payload status other than "success"), the pipeline returns the empty
message and the error "fetching word of day: " wrapping the cause the fetch stage
reports, and the completion service is not called. -/
theorem GetTodaysWordWithTranslation_fetch_failure (ws : WordService) (now : Time)
    (h : fetchFails (ws.client.Do (ChineseClass101URL ++ now.Format)) = true) :
    ∃ trace cause, fetchWordOfDay ws now.Format = .done trace (.error cause) ∧
      GetTodaysWordWithTranslation ws now =
        .done trace ("", some (.wrap "fetching word of day: " cause)) ∧
      (GoError.wrap "fetching word of day: " cause).Unwrap = some cause ∧
      completionCalls trace = [] := by
  obtain ⟨trace, cause, hf, hc⟩ := fetchWordOfDay_fails ws now.Format h
  refine ⟨trace, cause, hf, ?_, rfl, hc⟩
  unfold GetTodaysWordWithTranslation
  simp only [hf]

/-- Witness of C5: a word source that answers with status 500. -/
theorem GetTodaysWordWithTranslation_fetch_failure_witness :
    fetchFails ((sampleService 500 "success" ["訳"]).client.Do
        (ChineseClass101URL ++ morning.Format)) = true ∧
      ∃ trace cause,
        fetchWordOfDay (sampleService 500 "success" ["訳"]) morning.Format =
          .done trace (.error cause) ∧
        GetTodaysWordWithTranslation (sampleService 500 "success" ["訳"]) morning =
          .done trace ("", some (.wrap "fetching word of day: " cause)) ∧
        (GoError.wrap "fetching word of day: " cause).Unwrap = some cause ∧
        completionCalls trace = [] :=
  ⟨by decide, GetTodaysWordWithTranslation_fetch_failure _ _ (by decide)⟩

/-- C6: after a successful fetch, a completion call that fails or returns no choice
makes the pipeline return the empty message and the error "translating word: " wrapping
the cause; the pipeline returns, so the first choice of an empty list is never read. -/
theorem GetTodaysWordWithTranslation_translation_failure (ws : WordService) (now : Time)
    (resp : Response) (w : WordOfDayResponse)
    (hdo : ws.client.Do (ChineseClass101URL ++ now.Format) = .ok resp)
    (hcode : resp.StatusCode = 200) (hbody : resp.Body = .ok w) (hstatus : w.Status = "success")
    (hfail :
      completionFails (ws.openaiClient.CreateChatCompletion (completionRequest ws w)) = true) :
    ∃ cause,
      translateWord ws w =
        .done [Event.createChatCompletion (completionRequest ws w)] ("", some cause) ∧
      GetTodaysWordWithTranslation ws now =
        .done ((Event.httpDo (ChineseClass101URL ++ now.Format) :: closeBody resp) ++
            [Event.createChatCompletion (completionRequest ws w)])
          ("", some (.wrap "translating word: " cause)) := by
  obtain ⟨cause, ht⟩ := translateWord_fails ws w hfail
  refine ⟨cause, ht, ?_⟩
  unfold GetTodaysWordWithTranslation
  simp only [fetchWordOfDay_ok ws now.Format resp w hdo hcode hbody hstatus, ht]

/-- Witness of C6: the word source succeeds and the completion service returns no
choice. -/
theorem GetTodaysWordWithTranslation_translation_failure_witness :
    ∃ cause,
      translateWord (sampleService 200 "success" []) (sampleWord "success") =
        .done [Event.createChatCompletion
          (completionRequest (sampleService 200 "success" []) (sampleWord "success"))]
          ("", some cause) ∧
      GetTodaysWordWithTranslation (sampleService 200 "success" []) morning =
        .done ((Event.httpDo (ChineseClass101URL ++ morning.Format) ::
            closeBody ⟨200, .ok (sampleWord "success"), none⟩) ++
            [Event.createChatCompletion
              (completionRequest (sampleService 200 "success" []) (sampleWord "success"))])
          ("", some (.wrap "translating word: " cause)) :=
  GetTodaysWordWithTranslation_translation_failure (sampleService 200 "success" []) morning
    ⟨200, .ok (sampleWord "success"), none⟩ (sampleWord "success") rfl rfl rfl (by decide)
    (by decide)

/-- C7: after a successful fetch of a word with text `T`, a completion response whose
first choice has content `C` makes the pipeline return, without error, the header
"## 今日の中国語\n", then "単語: " ++ T ++ "\n", then `C` unchanged. -/
theorem GetTodaysWordWithTranslation_success (ws : WordService) (now : Time)
    (resp : Response) (w : WordOfDayResponse) (completion : ChatCompletionResponse)
    (choice : ChatCompletionChoice) (rest : List ChatCompletionChoice)
    (hdo : ws.client.Do (ChineseClass101URL ++ now.Format) = .ok resp)
    (hcode : resp.StatusCode = 200) (hbody : resp.Body = .ok w) (hstatus : w.Status = "success")
    (hcall : ws.openaiClient.CreateChatCompletion (completionRequest ws w) = .ok completion)
    (hchoices : completion.Choices = choice :: rest) :
    GetTodaysWordWithTranslation ws now =
      .done ((Event.httpDo (ChineseClass101URL ++ now.Format) :: closeBody resp) ++
          [Event.createChatCompletion (completionRequest ws w)])
        ("## 今日の中国語\n" ++ ("単語: " ++ w.Payload.WordDay.Text ++ "\n") ++
          choice.Message.Content, none) :=
  GetTodaysWordWithTranslation_ok ws now resp w completion choice rest hdo hcode hbody hstatus hcall
    hchoices

/-- Witness of C7: the word 你好 and a completion service that returns two choices. -/
theorem GetTodaysWordWithTranslation_success_witness :
    GetTodaysWordWithTranslation (sampleService 200 "success" ["読み方：ニーハオ", "別"]) morning =
      .done ((Event.httpDo (ChineseClass101URL ++ morning.Format) ::
          closeBody ⟨200, .ok (sampleWord "success"), none⟩) ++
          [Event.createChatCompletion
            (completionRequest (sampleService 200 "success" ["読み方：ニーハオ", "別"])
              (sampleWord "success"))])
        ("## 今日の中国語\n" ++ ("単語: " ++ (sampleWord "success").Payload.WordDay.Text ++ "\n") ++
          (ChatCompletionChoice.mk ⟨"assistant", "読み方：ニーハオ"⟩).Message.Content, none) :=
  GetTodaysWordWithTranslation_success (sampleService 200 "success" ["読み方：ニーハオ", "別"])
    morning ⟨200, .ok (sampleWord "success"), none⟩ (sampleWord "success")
    ⟨[⟨⟨"assistant", "読み方：ニーハオ"⟩⟩, ⟨⟨"assistant", "別"⟩⟩]⟩ ⟨⟨"assistant", "読み方：ニーハオ"⟩⟩
    [⟨⟨"assistant", "別"⟩⟩] rfl rfl rfl (by decide) rfl rfl

/-! ## The task of a subscription -/

/-- The fire returns. -/
theorem sendDailyWord_done (sm : SubscriptionManager) (now : Time) (channelID : String) :
    ∃ trace, sendDailyWord sm now channelID = .done trace () := by
  unfold sendDailyWord
  split
  · rename_i ws sender _ _
    obtain ⟨trace, val, hg, -⟩ := GetTodaysWordWithTranslation_done ws now
    obtain ⟨translation, e⟩ := val
    simp only [hg]
    cases e with
    | some err => exact ⟨_, rfl⟩
    | none =>
      dsimp only
      split
      · exact ⟨_, rfl⟩
      · exact ⟨_, rfl⟩
  · exact ⟨_, rfl⟩

/-- C9: a fire whose pipeline returns an error, or whose manager has no word service or
no sender, sends nothing; a fire whose pipeline returns the message `m` sends exactly one
message, `m` to the channel of the subscription. -/
theorem sendDailyWord_sends (sm : SubscriptionManager) (now : Time) (channelID : String) :
    ((sm.wordService.isNone = true ∨ sm.sender.isNone = true) →
      sends (sendDailyWord sm now channelID).trace = []) ∧
    (∀ ws sender, sm.wordService = some ws → sm.sender = some sender →
      (∀ trace m err, GetTodaysWordWithTranslation ws now = .done trace (m, some err) →
        sends (sendDailyWord sm now channelID).trace = []) ∧
      (∀ trace m, GetTodaysWordWithTranslation ws now = .done trace (m, none) →
        sends (sendDailyWord sm now channelID).trace = [(channelID, m)])) := by
  refine ⟨?_, ?_⟩
  · intro h
    unfold sendDailyWord
    split
    · rename_i ws sender hw hs
      rw [hw, hs] at h
      simp at h
    · rfl
  · intro ws sender hw hs
    obtain ⟨t0, v0, hg0, hs0⟩ := GetTodaysWordWithTranslation_done ws now
    refine ⟨?_, ?_⟩
    · intro trace m err hg
      rw [hg] at hg0
      injection hg0 with ht _
      subst ht
      unfold sendDailyWord
      simp only [hw, hs, hg]
      simp [Exec.trace, sends_append, hs0, sends]
    · intro trace m hg
      rw [hg] at hg0
      injection hg0 with ht _
      subst ht
      unfold sendDailyWord
      simp only [hw, hs, hg]
      cases sender.SendMessage channelID m with
      | none => simp [Exec.trace, sends_append, hs0, sends]
      | some err => simp [Exec.trace, sends_append, hs0, sends]

/-- Witness of C9: no word service; a word source that answers 500; a pipeline that
succeeds. -/
theorem sendDailyWord_sends_witness :
    sends (sendDailyWord managerWithoutService morning "C1").trace = [] ∧
    sends (sendDailyWord (sampleManager 500 "success" ["訳"]) morning "C1").trace = [] ∧
    sends (sendDailyWord (sampleManager 200 "success" ["訳"]) morning "C1").trace =
      [("C1", "## 今日の中国語\n単語: 你好\n訳")] :=
  ⟨(sendDailyWord_sends managerWithoutService morning "C1").1 (Or.inl rfl),
    ((sendDailyWord_sends (sampleManager 500 "success" ["訳"]) morning "C1").2
      (sampleService 500 "success" ["訳"]) sampleSender rfl rfl).1
      [Event.httpDo (ChineseClass101URL ++ morning.Format)] ""
      (.wrap "fetching word of day: " (.msg ("API returned status code " ++ toString (500 : Int))))
      rfl,
    ((sendDailyWord_sends (sampleManager 200 "success" ["訳"]) morning "C1").2
      (sampleService 200 "success" ["訳"]) sampleSender rfl rfl).2
      [Event.httpDo (ChineseClass101URL ++ morning.Format),
        Event.createChatCompletion
          (completionRequest (sampleService 200 "success" ["訳"]) (sampleWord "success"))]
      "## 今日の中国語\n単語: 你好\n訳" (by
        rw [GetTodaysWordWithTranslation_ok (sampleService 200 "success" ["訳"]) morning
          ⟨200, .ok (sampleWord "success"), none⟩ (sampleWord "success") ⟨[⟨⟨"assistant", "訳"⟩⟩]⟩
          ⟨⟨"assistant", "訳"⟩⟩ [] rfl rfl rfl (by decide) rfl rfl]
        have e : "## 今日の中国語\n" ++ ("単語: " ++ (sampleWord "success").Payload.WordDay.Text ++ "\n") ++
            (ChatCompletionChoice.mk ⟨"assistant", "訳"⟩).Message.Content =
            "## 今日の中国語\n単語: 你好\n訳" := by decide
        rw [e]
        rfl)⟩

/-- On every fire the round returns with the task waiting, the timer due 24 hours after
the instant `sendDailyWord` returns. -/
theorem scheduleDailyRound_timer (sm : SubscriptionManager) (channelID : String) (now : Time)
    (elapsed : Nat) :
    ∃ trace, scheduleDailyRound sm channelID (.timer now elapsed) =
      .done trace (.waiting (now.UnixNano + elapsed + 24 * Hour)) := by
  obtain ⟨trace, h⟩ := sendDailyWord_done sm now channelID
  exact ⟨trace, by simp only [scheduleDailyRound, h]⟩

/-- The loop returns after any wakes; it has exited exactly when the close of `stopChan`
was among them. -/
theorem scheduleDailyLoop_exit (sm : SubscriptionManager) (channelID : String) (expiry : Int)
    (wakes : List Wake) :
    ∃ trace final, scheduleDailyLoop sm channelID (.waiting expiry) wakes = .done trace final ∧
      (final = .exited ↔ Wake.stop ∈ wakes) := by
  induction wakes generalizing expiry with
  | nil => exact ⟨[], .waiting expiry, rfl, by simp⟩
  | cons w rest ih =>
    cases w with
    | stop =>
      refine ⟨[], .exited, ?_, by simp⟩
      cases rest <;> simp [scheduleDailyLoop, scheduleDailyRound]
    | timer now elapsed =>
      obtain ⟨trace, h⟩ := scheduleDailyRound_timer sm channelID now elapsed
      obtain ⟨trace2, final, h2, hiff⟩ := ih (now.UnixNano + elapsed + 24 * Hour)
      refine ⟨trace ++ trace2, final, ?_, ?_⟩
      · simp only [scheduleDailyLoop, h, h2]
      · simp [hiff]

/-- C8 (amended): on every fire, whatever the pipeline and the dispatch do, the round
returns with the task waiting again, the timer due 24 hours after the instant
`sendDailyWord` returns, hence no earlier than 24 hours after the fire and not at once; a
round ends the task exactly when the wake is the close of `stopChan`, and after any wakes
the task has exited exactly when the close of `stopChan` was among them. -/
theorem scheduleDaily_fire (sm : SubscriptionManager) (channelID : String) :
    (∀ now elapsed, ∃ trace,
      scheduleDailyRound sm channelID (.timer now elapsed) =
        .done trace (.waiting (now.UnixNano + elapsed + 24 * Hour)) ∧
      now.UnixNano + 24 * Hour ≤ now.UnixNano + elapsed + 24 * Hour ∧
      now.UnixNano < now.UnixNano + elapsed + 24 * Hour) ∧
    (∀ wake, ∃ trace task,
      scheduleDailyRound sm channelID wake = .done trace task ∧
      (task = .exited ↔ wake = .stop)) ∧
    (∀ nextRun wakes, ∃ trace final,
      scheduleDaily sm channelID nextRun wakes = .done trace final ∧
      (final = .exited ↔ Wake.stop ∈ wakes)) := by
  have hday : (24 * Hour : Int) = 86400000000000 := by decide
  refine ⟨?_, ?_, ?_⟩
  · intro now elapsed
    obtain ⟨trace, h⟩ := scheduleDailyRound_timer sm channelID now elapsed
    exact ⟨trace, h, by omega, by omega⟩
  · intro wake
    cases wake with
    | stop => exact ⟨[], .exited, rfl, by simp⟩
    | timer now elapsed =>
      obtain ⟨trace, h⟩ := scheduleDailyRound_timer sm channelID now elapsed
      exact ⟨trace, _, h, by simp⟩
  · intro nextRun wakes
    exact scheduleDailyLoop_exit sm channelID nextRun.UnixNano wakes

/-- Counterexample of C8: a fire taken at 08:00 whose `sendDailyWord` runs for five
seconds leaves the timer due at 08:00:05 the next day, not 24 hours after the fire. -/
theorem scheduleDaily_fire_drift :
    scheduleDailyRound (sampleManager 200 "success" ["訳"]) "C1" (.timer morning fiveSeconds) =
      .done
        [Event.httpDo (ChineseClass101URL ++ morning.Format),
          Event.createChatCompletion
            (completionRequest (sampleService 200 "success" ["訳"]) (sampleWord "success")),
          Event.sendMessage "C1"
            ("## 今日の中国語\n" ++ ("単語: " ++ (sampleWord "success").Payload.WordDay.Text ++ "\n") ++
              "訳")]
        (.waiting (morning.UnixNano + 24 * Hour + 5 * Second)) ∧
    morning.UnixNano + 24 * Hour + 5 * Second ≠ morning.UnixNano + 24 * Hour := by
  refine ⟨?_, by decide⟩
  have e : morning.UnixNano + (fiveSeconds : Int) + 24 * Hour =
      morning.UnixNano + 24 * Hour + 5 * Second := by decide
  rw [← e]
  rfl

/-! ## The manager -/

theorem mapGet_mapDelete {α : Type} (l : List (String × α)) (k c : String) :
    mapGet (mapDelete l k) c = if c = k then none else mapGet l c := by
  induction l with
  | nil => simp [mapGet, mapDelete]
  | cons e t ih =>
    unfold mapGet mapDelete at ih ⊢
    by_cases hk : e.1 = k
    · by_cases hc : c = k
      · simp [hk, hc] at ih ⊢
      · have hne : ¬ k = c := fun h => hc h.symm
        simp [hk, hc, hne] at ih ⊢
        exact ih
    · by_cases hc : e.1 = c
      · have hck : ¬ c = k := fun h => hk (hc.trans h)
        simp [hk, hc, hck]
      · simp [hk, hc] at ih ⊢
        exact ih

theorem mapGet_mapSet {α : Type} (l : List (String × α)) (k c : String) (v : α) :
    mapGet (mapSet l k v) c = if c = k then some v else mapGet l c := by
  by_cases hc : c = k
  · simp [mapSet, mapGet, hc]
  · have hne : ¬ k = c := fun h => hc h.symm
    have h := mapGet_mapDelete l k c
    unfold mapGet at h ⊢
    simp [mapSet, hc, hne] at h ⊢
    exact h

theorem mem_mapDelete {α : Type} (l : List (String × α)) (k : String) (e : String × α)
    (h : e ∈ mapDelete l k) : e ∈ l := by
  unfold mapDelete at h
  exact (List.mem_filter.mp h).1

theorem liveChans_mapDelete_sublist (l : List (String × List Subscription)) (k : String) :
    (liveChans (mapDelete l k)).Sublist (liveChans l) := by
  induction l with
  | nil => simp [mapDelete, liveChans]
  | cons e t ih =>
    unfold mapDelete at ih ⊢
    by_cases hk : e.1 = k
    · simp only [List.filter, hk, beq_self_eq_true, Bool.not_true, liveChans]
      exact ih.trans (List.sublist_append_right _ _)
    · have hb : (!(e.1 == k)) = true := by simp [hk]
      simp only [List.filter, hb, liveChans]
      exact List.Sublist.append (List.Sublist.refl _) ih

/-- The channels of the list a key holds and those left after deleting the key are
distinct channels of the map. -/
theorem mapGet_split (l : List (String × List Subscription)) (k : String)
    (subs : List Subscription) (hnd : (liveChans l).Nodup) (hget : mapGet l k = some subs) :
    (stopChans subs ++ liveChans (mapDelete l k)).Nodup ∧
    ∀ n ∈ stopChans subs ++ liveChans (mapDelete l k), n ∈ liveChans l := by
  induction l with
  | nil => simp [mapGet] at hget
  | cons e t ih =>
    simp only [liveChans] at hnd ⊢
    obtain ⟨hA, hT, hdis⟩ := List.nodup_append.mp hnd
    have hsub := liveChans_mapDelete_sublist t k
    by_cases hk : e.1 = k
    · have hs : subs = e.2 := by
        simp [mapGet, hk] at hget
        exact hget.symm
      have hdel : mapDelete (e :: t) k = mapDelete t k := by
        simp [mapDelete, hk]
      rw [hdel, hs]
      refine ⟨List.nodup_append.mpr ⟨hA, hT.sublist hsub, ?_⟩, ?_⟩
      · intro n hn1 hn2
        exact hdis hn1 (hsub.subset hn2)
      · intro n hn
        rcases List.mem_append.mp hn with h | h
        · exact List.mem_append.mpr (Or.inl h)
        · exact List.mem_append.mpr (Or.inr (hsub.subset h))
    · have hget2 : mapGet t k = some subs := by
        simpa [mapGet, hk] using hget
      have hdel : mapDelete (e :: t) k = e :: mapDelete t k := by
        simp [mapDelete, hk]
      obtain ⟨ih1, ih2⟩ := ih hT hget2
      rw [hdel]
      simp only [liveChans]
      have hperm : (stopChans subs ++ (stopChans e.2 ++ liveChans (mapDelete t k))).Perm
          (stopChans e.2 ++ (stopChans subs ++ liveChans (mapDelete t k))) := by
        rw [← List.append_assoc, ← List.append_assoc]
        exact List.Perm.append_right _ List.perm_append_comm
      refine ⟨hperm.nodup_iff.mpr (List.nodup_append.mpr ⟨hA, ih1, ?_⟩), ?_⟩
      · intro n hn1 hn2
        exact hdis hn1 (ih2 n hn2)
      · intro n hn
        rcases List.mem_append.mp hn with h | h
        · exact List.mem_append.mpr (Or.inr (ih2 n (List.mem_append.mpr (Or.inl h))))
        · rcases List.mem_append.mp h with h | h
          · exact List.mem_append.mpr (Or.inl h)
          · exact List.mem_append.mpr (Or.inr (ih2 n (List.mem_append.mpr (Or.inr h))))

/-- Closing the channels of a list neither touches the map nor makes a channel. -/
theorem closeSubs_frame (m : Machine) (subs : List Subscription) :
    (closeSubs m subs).machine.sm = m.sm ∧ (closeSubs m subs).machine.chans = m.chans ∧
    (closeSubs m subs).machine.goroutines = m.goroutines := by
  induction subs generalizing m with
  | nil => exact ⟨rfl, rfl, rfl⟩
  | cons sub rest ih =>
    unfold closeSubs
    cases sub.StopChan with
    | none => exact ih m
    | some c =>
      dsimp only
      unfold closeChan
      by_cases hc : c ∈ m.closed
      · simp only [hc, if_true]
        exact ⟨rfl, rfl, rfl⟩
      · simp only [hc, if_false]
        exact ih _

theorem closeAll_frame (m : Machine) (l : List (String × List Subscription)) :
    (closeAll m l).machine.sm = m.sm ∧ (closeAll m l).machine.chans = m.chans ∧
    (closeAll m l).machine.goroutines = m.goroutines := by
  induction l generalizing m with
  | nil => exact ⟨rfl, rfl, rfl⟩
  | cons e rest ih =>
    unfold closeAll
    have hf := closeSubs_frame m e.2
    cases hcs : closeSubs m e.2 with
    | ok m1 u =>
      rw [hcs] at hf
      dsimp only
      obtain ⟨h1, h2, h3⟩ := ih m1
      exact ⟨h1.trans hf.1, h2.trans hf.2.1, h3.trans hf.2.2⟩
    | panic m1 text =>
      rw [hcs] at hf
      exact hf

/-- Closing distinct open channels does not panic and closes exactly them. -/
theorem closeSubs_ok (m : Machine) (subs : List Subscription)
    (hnd : (stopChans subs).Nodup) (hopen : ∀ n ∈ stopChans subs, n ∉ m.closed) :
    closeSubs m subs = .ok { m with closed := (stopChans subs).reverse ++ m.closed } () := by
  induction subs generalizing m with
  | nil => rfl
  | cons sub rest ih =>
    unfold closeSubs
    cases hs : sub.StopChan with
    | none =>
      have e : stopChans (sub :: rest) = stopChans rest := by
        simp [stopChans, List.filterMap_cons, hs]
      rw [e] at hnd hopen ⊢
      exact ih m hnd hopen
    | some c =>
      have e : stopChans (sub :: rest) = c :: stopChans rest := by
        simp [stopChans, List.filterMap_cons, hs]
      rw [e] at hnd hopen ⊢
      have hc : c ∉ m.closed := hopen c (List.mem_cons_self _ _)
      obtain ⟨hcn, hnd2⟩ := List.nodup_cons.mp hnd
      dsimp only
      unfold closeChan
      simp only [hc, if_false]
      rw [ih _ hnd2 ?_]
      · simp [List.reverse_cons, List.append_assoc]
      · intro n hn
        simp only [List.mem_cons, not_or]
        exact ⟨fun h => hcn (h ▸ hn), hopen n (List.mem_cons_of_mem _ hn)⟩

theorem held_mapGet_none (m : Machine) (c : String) (h : mapGet m.sm.subscriptions c = none) :
    held m c = 0 := by
  simp [held, h]

theorem held_mapGet_some (m : Machine) (c : String) (subs : List Subscription)
    (h : mapGet m.sm.subscriptions c = some subs) : held m c = subs.length := by
  simp [held, h]

/-- The channels of the list `Subscribe` extends and those of the other keys are
distinct channels of the map. -/
theorem mapGet_getD_split (l : List (String × List Subscription)) (k : String)
    (hnd : (liveChans l).Nodup) :
    (stopChans ((mapGet l k).getD []) ++ liveChans (mapDelete l k)).Nodup ∧
    ∀ n ∈ stopChans ((mapGet l k).getD []) ++ liveChans (mapDelete l k), n ∈ liveChans l := by
  cases hget : mapGet l k with
  | none =>
    simp only [Option.getD_none, stopChans, List.filterMap_nil, List.nil_append]
    exact ⟨hnd.sublist (liveChans_mapDelete_sublist l k),
      fun n hn => (liveChans_mapDelete_sublist l k).subset hn⟩
  | some subs =>
    simp only [Option.getD_some]
    exact mapGet_split l k subs hnd hget

/-- In a sound machine `Subscribe` returns nil, keeps the machine sound, and lengthens
by one the list of its channel only. -/
theorem Subscribe_sound (m : Machine) (channelID guildID : String) (scheduledTime now : Time)
    (hs : Sound m) :
    ∃ m1, Subscribe m channelID guildID scheduledTime now = .ok m1 none ∧ Sound m1 ∧
      ∀ c, held m1 c = (if channelID = c then 1 else 0) + held m c := by
  obtain ⟨hsplit, hsub⟩ := mapGet_getD_split m.sm.subscriptions channelID hs.nodup
  refine ⟨_, rfl, ⟨?_, ?_, ?_, ?_⟩, ?_⟩
  · show (liveChans (mapSet m.sm.subscriptions channelID _)).Nodup
    simp only [mapSet, liveChans, stopChans, List.filterMap_append, List.filterMap_cons,
      List.filterMap_nil]
    have hperm : ((List.filterMap (fun sub => sub.StopChan)
          ((mapGet m.sm.subscriptions channelID).getD []) ++ [m.chans]) ++
        liveChans (mapDelete m.sm.subscriptions channelID)).Perm
        (m.chans :: (stopChans ((mapGet m.sm.subscriptions channelID).getD []) ++
          liveChans (mapDelete m.sm.subscriptions channelID))) := by
      unfold stopChans
      rw [List.append_assoc]
      exact List.perm_middle
    refine hperm.nodup_iff.mpr (List.nodup_cons.mpr ⟨?_, hsplit⟩)
    intro hmem
    exact Nat.lt_irrefl _ (hs.made _ (hsub _ hmem))
  · intro n hn
    show n < m.chans + 1
    have hn2 : n ∈ liveChans (mapSet m.sm.subscriptions channelID
        ((mapGet m.sm.subscriptions channelID).getD [] ++
          [{ ChannelID := channelID, GuildID := guildID, Time := scheduledTime,
             StopChan := some m.chans }])) := hn
    simp only [mapSet, liveChans, stopChans, List.filterMap_append, List.filterMap_cons,
      List.filterMap_nil, List.mem_append, List.mem_singleton] at hn2
    rcases hn2 with (h | h) | h
    · exact Nat.lt_succ_of_lt (hs.made _ (hsub _ (List.mem_append.mpr (Or.inl h))))
    · omega
    · exact Nat.lt_succ_of_lt (hs.made _ (hsub _ (List.mem_append.mpr (Or.inr h))))
  · intro n hn
    show n ∉ m.closed
    have hn2 : n ∈ liveChans (mapSet m.sm.subscriptions channelID
        ((mapGet m.sm.subscriptions channelID).getD [] ++
          [{ ChannelID := channelID, GuildID := guildID, Time := scheduledTime,
             StopChan := some m.chans }])) := hn
    simp only [mapSet, liveChans, stopChans, List.filterMap_append, List.filterMap_cons,
      List.filterMap_nil, List.mem_append, List.mem_singleton] at hn2
    rcases hn2 with (h | h) | h
    · exact hs.isOpen _ (hsub _ (List.mem_append.mpr (Or.inl h)))
    · intro hc
      have := hs.closedMade _ hc
      omega
    · exact hs.isOpen _ (hsub _ (List.mem_append.mpr (Or.inr h)))
  · intro n hn
    show n < m.chans + 1
    exact Nat.lt_succ_of_lt (hs.closedMade n hn)
  · intro c
    show ((mapGet (mapSet m.sm.subscriptions channelID _) c).map List.length).getD 0 = _
    rw [mapGet_mapSet]
    by_cases hc : c = channelID
    · subst hc
      simp only [if_true, Option.map_some', Option.getD_some, List.length_append,
        List.length_singleton, held]
      cases mapGet m.sm.subscriptions c <;> simp [Nat.add_comm]
    · have hne : ¬ channelID = c := fun h => hc h.symm
      simp [hc, hne, held]

/-- In a sound machine `Unsubscribe` returns the length of the list of its channel,
keeps the machine sound, and empties that channel only. -/
theorem Unsubscribe_sound (m : Machine) (channelID : String) (hs : Sound m) :
    ∃ m1, Unsubscribe m channelID = .ok m1 (held m channelID) ∧ Sound m1 ∧
      ∀ c, held m1 c = if channelID = c then 0 else held m c := by
  cases hget : mapGet m.sm.subscriptions channelID with
  | none =>
    refine ⟨m, ?_, hs, ?_⟩
    · unfold Unsubscribe
      simp only [hget, held_mapGet_none m channelID hget]
    · intro c
      by_cases hc : channelID = c
      · subst hc
        simp [held_mapGet_none m channelID hget]
      · simp [hc]
  | some subs =>
    obtain ⟨hsplit, hsub⟩ := mapGet_split m.sm.subscriptions channelID subs hs.nodup hget
    obtain ⟨hA, hD, hdis⟩ := List.nodup_append.mp hsplit
    have hclose := closeSubs_ok m subs hA
      (fun n hn => hs.isOpen n (hsub n (List.mem_append.mpr (Or.inl hn))))
    refine ⟨{ sm := { m.sm with
                      subscriptions := mapDelete m.sm.subscriptions channelID },
              chans := m.chans, closed := (stopChans subs).reverse ++ m.closed,
              goroutines := m.goroutines }, ?_, ⟨?_, ?_, ?_, ?_⟩, ?_⟩
    · unfold Unsubscribe
      simp only [hget, hclose, held_mapGet_some m channelID subs hget]
    · exact hD
    · intro n hn
      exact hs.made n (hsub n (List.mem_append.mpr (Or.inr hn)))
    · intro n hn
      show n ∉ (stopChans subs).reverse ++ m.closed
      simp only [List.mem_append, List.mem_reverse, not_or]
      exact ⟨fun h => hdis h hn, hs.isOpen n (hsub n (List.mem_append.mpr (Or.inr hn)))⟩
    · intro n hn
      have hn2 : n ∈ (stopChans subs).reverse ++ m.closed := hn
      simp only [List.mem_append, List.mem_reverse] at hn2
      rcases hn2 with h | h
      · exact hs.made n (hsub n (List.mem_append.mpr (Or.inl h)))
      · exact hs.closedMade n h
    · intro c
      show ((mapGet (mapDelete m.sm.subscriptions channelID) c).map List.length).getD 0 = _
      rw [mapGet_mapDelete]
      by_cases hc : c = channelID
      · subst hc
        simp
      · have hne : ¬ channelID = c := fun h => hc h.symm
        simp [hc, hne, held]

theorem Sound_new (wordService : Option WordService) (sender : Option MessageSender) :
    Sound (NewSubscriptionManager wordService sender) :=
  ⟨List.nodup_nil, fun _ h => absurd h (List.not_mem_nil _),
    fun _ h => absurd h (List.not_mem_nil _), fun _ h => absurd h (List.not_mem_nil _)⟩

/-- From a sound machine whose lists have the lengths the history gives, calls other
than `Stop` return what the specification has them return after that history. -/
theorem runFrom_expected (calls : List Call) (m : Machine) (history : List Call)
    (acc : List Ret) (hs : Sound m) (hh : ∀ c, held m c = subscribedSince c history)
    (hno : ∀ call ∈ calls, call.isStop = false) :
    ∃ m1, runFrom m acc calls = .ok m1 (acc ++ expectedFrom history calls) ∧ Sound m1 := by
  induction calls generalizing m history acc with
  | nil => exact ⟨m, by simp [runFrom, expectedFrom], hs⟩
  | cons call rest ih =>
    have hrest : ∀ c ∈ rest, c.isStop = false := fun c hc => hno c (List.mem_cons_of_mem _ hc)
    cases call with
    | Stop =>
      have := hno .Stop (List.mem_cons_self _ _)
      simp [Call.isStop] at this
    | Subscribe channelID guildID scheduledTime now =>
      obtain ⟨m1, hstep, hs1, hheld⟩ := Subscribe_sound m channelID guildID scheduledTime now hs
      obtain ⟨m2, hrun, hs2⟩ := ih m1 (.Subscribe channelID guildID scheduledTime now :: history)
        (acc ++ [.err none]) hs1
        (fun c => by rw [hheld c, hh c]; simp [subscribedSince]) hrest
      refine ⟨m2, ?_, hs2⟩
      simp only [runFrom, step, hstep, hrun, expectedFrom, List.append_assoc,
        List.singleton_append]
    | Unsubscribe channelID =>
      obtain ⟨m1, hstep, hs1, hheld⟩ := Unsubscribe_sound m channelID hs
      obtain ⟨m2, hrun, hs2⟩ := ih m1 (.Unsubscribe channelID :: history)
        (acc ++ [.count (held m channelID)]) hs1
        (fun c => by
          rw [hheld c]
          by_cases hc : channelID = c
          · simp [subscribedSince, hc]
          · simp [subscribedSince, hc, hh c]) hrest
      rw [hh channelID] at hstep hrun
      refine ⟨m2, ?_, hs2⟩
      simp only [runFrom, step, hstep, hrun, expectedFrom, List.append_assoc,
        List.singleton_append]

/-- C3: on a fresh manager, over any sequence of `Subscribe` and `Unsubscribe` calls,
every call returns, and each `Unsubscribe` returns the number of `Subscribe` calls made
for its channel since the previous `Unsubscribe` of that channel, 0 when there were
none. -/
theorem Unsubscribe_returns_count (wordService : Option WordService)
    (sender : Option MessageSender) (calls : List Call)
    (hno : ∀ call ∈ calls, call.isStop = false) :
    ∃ m1, run (NewSubscriptionManager wordService sender) calls =
      .ok m1 (expectedFrom [] calls) := by
  obtain ⟨m1, h, -⟩ := runFrom_expected calls (NewSubscriptionManager wordService sender) [] []
    (Sound_new wordService sender) (fun c => by simp [held, NewSubscriptionManager, mapGet,
      subscribedSince]) hno
  exact ⟨m1, by simpa [run] using h⟩

/-- Witness of C3: two subscriptions of "C1", then `Unsubscribe` returns 2 and a further
`Unsubscribe` returns 0. -/
theorem Unsubscribe_returns_count_witness :
    (∀ call ∈ twoThenUnsubscribe, call.isStop = false) ∧
    ∃ m1, run (NewSubscriptionManager none none) twoThenUnsubscribe =
      .ok m1 [.err none, .err none, .count 2, .count 0] :=
  ⟨by decide, Unsubscribe_returns_count none none twoThenUnsubscribe (by decide)⟩

theorem NoEmptyList_Subscribe (m : Machine) (channelID guildID : String)
    (scheduledTime now : Time) (h : NoEmptyList m) :
    NoEmptyList (Subscribe m channelID guildID scheduledTime now).machine := by
  intro e he
  have he2 : e ∈ mapSet m.sm.subscriptions channelID
      ((mapGet m.sm.subscriptions channelID).getD [] ++
        [{ ChannelID := channelID, GuildID := guildID, Time := scheduledTime,
           StopChan := some m.chans }]) := he
  simp only [mapSet, List.mem_cons] at he2
  rcases he2 with h1 | h1
  · rw [h1]
    simp
  · exact h e (mem_mapDelete _ _ _ h1)

theorem NoEmptyList_Unsubscribe (m : Machine) (channelID : String) (h : NoEmptyList m) :
    NoEmptyList (Unsubscribe m channelID).machine := by
  unfold Unsubscribe
  cases mapGet m.sm.subscriptions channelID with
  | none => exact h
  | some subs =>
    dsimp only
    have hf := (closeSubs_frame m subs).1
    cases hcs : closeSubs m subs with
    | panic m1 text =>
      rw [hcs] at hf
      intro e he
      have he2 : e ∈ m1.sm.subscriptions := he
      have hf2 : m1.sm = m.sm := hf
      rw [hf2] at he2
      exact h e he2
    | ok m1 u =>
      rw [hcs] at hf
      intro e he
      have he2 : e ∈ mapDelete m1.sm.subscriptions channelID := he
      have hf2 : m1.sm = m.sm := hf
      rw [hf2] at he2
      exact h e (mem_mapDelete _ _ _ he2)

theorem NoEmptyList_Stop (m : Machine) (h : NoEmptyList m) : NoEmptyList (Stop m).machine := by
  intro e he
  have hf := (closeAll_frame m m.sm.subscriptions).1
  unfold Stop at he
  rw [hf] at he
  exact h e he

theorem step_machine (m : Machine) (call : Call) :
    (step m call).machine =
      match call with
      | .Subscribe channelID guildID scheduledTime now =>
        (Subscribe m channelID guildID scheduledTime now).machine
      | .Unsubscribe channelID => (Unsubscribe m channelID).machine
      | .Stop => (Stop m).machine := by
  cases call with
  | Subscribe channelID guildID scheduledTime now => rfl
  | Unsubscribe channelID =>
    simp only [step]
    cases Unsubscribe m channelID <;> rfl
  | Stop =>
    simp only [step]
    cases Stop m <;> rfl

/-- C10: the map of a new manager holds no empty list, and every call of `Subscribe`,
`Unsubscribe` or `Stop` on a machine whose map holds no empty list leaves a machine whose
map holds none, whether the call returns or panics. -/
theorem NoEmptyList_invariant (wordService : Option WordService)
    (sender : Option MessageSender) :
    NoEmptyList (NewSubscriptionManager wordService sender) ∧
    ∀ m call, NoEmptyList m → NoEmptyList (step m call).machine := by
  refine ⟨fun e he => absurd he (List.not_mem_nil _), ?_⟩
  intro m call h
  rw [step_machine]
  cases call with
  | Subscribe channelID guildID scheduledTime now => exact NoEmptyList_Subscribe m _ _ _ _ h
  | Unsubscribe channelID => exact NoEmptyList_Unsubscribe m _ h
  | Stop => exact NoEmptyList_Stop m h

/-- Witness of C10: a new manager, a subscription of "C1", then `Unsubscribe` for it. -/
theorem NoEmptyList_invariant_witness :
    NoEmptyList (NewSubscriptionManager none none) ∧
    NoEmptyList (step (NewSubscriptionManager none none)
      (.Subscribe "C1" "G1" nineOClock morning)).machine ∧
    NoEmptyList (step (step (NewSubscriptionManager none none)
      (.Subscribe "C1" "G1" nineOClock morning)).machine (.Unsubscribe "C1")).machine :=
  ⟨(NoEmptyList_invariant none none).1,
    (NoEmptyList_invariant none none).2 _ _ (NoEmptyList_invariant none none).1,
    (NoEmptyList_invariant none none).2 _ _
      ((NoEmptyList_invariant none none).2 _ _ (NoEmptyList_invariant none none).1)⟩

/-- Closing the distinct open channels of a map does not panic and closes exactly
them. -/
theorem closeAll_ok (l : List (String × List Subscription)) (m : Machine)
    (hnd : (liveChans l).Nodup) (hopen : ∀ n ∈ liveChans l, n ∉ m.closed) :
    ∃ m1, closeAll m l = .ok m1 () ∧ m1.sm = m.sm ∧ m1.chans = m.chans ∧
      ∀ n, n ∈ m1.closed ↔ n ∈ m.closed ∨ n ∈ liveChans l := by
  induction l generalizing m with
  | nil => exact ⟨m, rfl, rfl, rfl, fun n => by simp [liveChans]⟩
  | cons e rest ih =>
    simp only [liveChans] at hnd hopen
    obtain ⟨hA, hR, hdis⟩ := List.nodup_append.mp hnd
    have hclose := closeSubs_ok m e.2 hA
      (fun n hn => hopen n (List.mem_append.mpr (Or.inl hn)))
    obtain ⟨m1, h1, hsm, hch, hcl⟩ := ih
      { m with closed := (stopChans e.2).reverse ++ m.closed } hR (by
        intro n hn
        show n ∉ (stopChans e.2).reverse ++ m.closed
        simp only [List.mem_append, List.mem_reverse, not_or]
        exact ⟨fun h => hdis h hn, hopen n (List.mem_append.mpr (Or.inr hn))⟩)
    refine ⟨m1, ?_, hsm, hch, ?_⟩
    · simp only [closeAll, hclose, h1]
    · intro n
      rw [hcl n]
      show n ∈ (stopChans e.2).reverse ++ m.closed ∨ n ∈ liveChans rest ↔ _
      simp only [liveChans, List.mem_append, List.mem_reverse]
      tauto

/-- In a sound machine `Stop` returns: it closes every channel of the map, each for the
first time, and leaves the map as it was. -/
theorem Stop_sound (m : Machine) (hs : Sound m) :
    ∃ m1, Stop m = .ok m1 () ∧ m1.sm = m.sm ∧
      ∀ n, n ∈ m1.closed ↔ n ∈ m.closed ∨ n ∈ liveChans m.sm.subscriptions := by
  obtain ⟨m1, h, hsm, -, hcl⟩ := closeAll_ok m.sm.subscriptions m hs.nodup hs.isOpen
  exact ⟨m1, h, hsm, hcl⟩

theorem runFrom_append (a b : List Call) (m : Machine) (acc : List Ret) :
    runFrom m acc (a ++ b) =
      match runFrom m acc a with
      | .ok m1 rets => runFrom m1 rets b
      | .panic m1 text => .panic m1 text := by
  induction a generalizing m acc with
  | nil => rfl
  | cons c rest ih =>
    simp only [List.cons_append, runFrom]
    cases step m c with
    | ok m1 r => exact ih m1 (acc ++ [r])
    | panic m1 text => rfl

/-- On a fresh manager, a sequence of `Subscribe` and `Unsubscribe` calls followed by
one `Stop` returns: up to and including the first `Stop` no channel is closed twice. -/
theorem run_then_Stop (wordService : Option WordService) (sender : Option MessageSender)
    (calls : List Call) (hno : ∀ call ∈ calls, call.isStop = false) :
    ∃ m1, run (NewSubscriptionManager wordService sender) (calls ++ [.Stop]) =
      .ok m1 (expectedFrom [] calls ++ [.unit]) := by
  obtain ⟨m1, h, hs⟩ := runFrom_expected calls (NewSubscriptionManager wordService sender) [] []
    (Sound_new wordService sender) (fun c => by simp [held, NewSubscriptionManager, mapGet,
      subscribedSince]) hno
  obtain ⟨m2, h2, -, -⟩ := Stop_sound m1 hs
  refine ⟨m2, ?_⟩
  unfold run
  rw [runFrom_append, h]
  simp only [runFrom, step, h2, List.nil_append]

/-- A loop over a list that returns closed distinct open channels. -/
theorem closeSubs_returns (subs : List Subscription) (m : Machine)
    (h : (closeSubs m subs).panicText = none) :
    (stopChans subs).Nodup ∧ ∀ n ∈ stopChans subs, n ∉ m.closed := by
  induction subs generalizing m with
  | nil => simp [stopChans]
  | cons sub rest ih =>
    unfold closeSubs at h
    cases hs : sub.StopChan with
    | none =>
      have e : stopChans (sub :: rest) = stopChans rest := by
        simp [stopChans, List.filterMap_cons, hs]
      rw [e]
      simp only [hs] at h
      exact ih m h
    | some c =>
      have e : stopChans (sub :: rest) = c :: stopChans rest := by
        simp [stopChans, List.filterMap_cons, hs]
      rw [e]
      simp only [hs, closeChan] at h
      by_cases hc : c ∈ m.closed
      · simp [hc, Outcome.panicText] at h
      · simp only [hc, if_false] at h
        obtain ⟨hnd, hopen⟩ := ih _ h
        refine ⟨List.nodup_cons.mpr ⟨fun hmem => ?_, hnd⟩, ?_⟩
        · exact hopen c hmem (List.mem_cons_self _ _)
        · intro n hn
          rcases List.mem_cons.mp hn with h1 | h1
          · rw [h1]; exact hc
          · exact fun hcl => hopen n h1 (List.mem_cons_of_mem _ hcl)

/-- The loop of `Stop` returns exactly when the channels of the map are distinct and
open. -/
theorem closeAll_returns_iff (l : List (String × List Subscription)) (m : Machine) :
    (closeAll m l).panicText = none ↔
      (liveChans l).Nodup ∧ ∀ n ∈ liveChans l, n ∉ m.closed := by
  constructor
  · intro h
    induction l generalizing m with
    | nil => simp [liveChans]
    | cons e rest ih =>
      unfold closeAll at h
      cases hcs : closeSubs m e.2 with
      | panic m1 text => simp [hcs, Outcome.panicText] at h
      | ok m1 u =>
        simp only [hcs] at h
        have hret : (closeSubs m e.2).panicText = none := by rw [hcs]; rfl
        obtain ⟨hA, hAopen⟩ := closeSubs_returns e.2 m hret
        have hm1 := closeSubs_ok m e.2 hA hAopen
        rw [hcs] at hm1
        injection hm1 with hm1 _
        obtain ⟨hR, hRopen⟩ := ih m1 h
        rw [hm1] at hRopen
        simp only [liveChans]
        refine ⟨List.nodup_append.mpr ⟨hA, hR, ?_⟩, ?_⟩
        · intro n hn1 hn2
          exact hRopen n hn2 (List.mem_append.mpr (Or.inl (List.mem_reverse.mpr hn1)))
        · intro n hn
          rcases List.mem_append.mp hn with h1 | h1
          · exact hAopen n h1
          · exact fun hcl => hRopen n h1 (List.mem_append.mpr (Or.inr hcl))
  · rintro ⟨hnd, hopen⟩
    obtain ⟨m1, h, -⟩ := closeAll_ok l m hnd hopen
    rw [h]
    rfl

theorem liveChans_perm (l1 l2 : List (String × List Subscription)) (h : l1.Perm l2) :
    (liveChans l1).Perm (liveChans l2) := by
  induction h with
  | nil => exact List.Perm.refl _
  | cons e _ ih => exact List.Perm.append_left _ ih
  | swap e1 e2 l =>
    simp only [liveChans, ← List.append_assoc]
    exact List.Perm.append_right _ List.perm_append_comm
  | trans _ _ ih1 ih2 => exact ih1.trans ih2

/-- The order in which `Stop` ranges over the map decides neither whether it panics nor,
when it returns, which channels it has closed. -/
theorem closeAll_order (l1 l2 : List (String × List Subscription)) (m : Machine)
    (h : l1.Perm l2) :
    ((closeAll m l1).panicText = none ↔ (closeAll m l2).panicText = none) ∧
    ((closeAll m l1).panicText = none →
      ∀ n, n ∈ (closeAll m l1).machine.closed ↔ n ∈ (closeAll m l2).machine.closed) := by
  have hp := liveChans_perm l1 l2 h
  have hiff : (closeAll m l1).panicText = none ↔ (closeAll m l2).panicText = none := by
    rw [closeAll_returns_iff, closeAll_returns_iff, hp.nodup_iff]
    constructor
    · rintro ⟨h1, h2⟩
      exact ⟨h1, fun n hn => h2 n (hp.mem_iff.mpr hn)⟩
    · rintro ⟨h1, h2⟩
      exact ⟨h1, fun n hn => h2 n (hp.mem_iff.mp hn)⟩
  refine ⟨hiff, ?_⟩
  intro h1 n
  obtain ⟨hnd1, hopen1⟩ := (closeAll_returns_iff l1 m).mp h1
  obtain ⟨hnd2, hopen2⟩ := (closeAll_returns_iff l2 m).mp (hiff.mp h1)
  obtain ⟨m1, e1, -, -, hc1⟩ := closeAll_ok l1 m hnd1 hopen1
  obtain ⟨m2, e2, -, -, hc2⟩ := closeAll_ok l2 m hnd2 hopen2
  rw [e1, e2]
  show n ∈ m1.closed ↔ n ∈ m2.closed
  rw [hc1, hc2, hp.mem_iff]

/-- C4, the failing run: after a subscription of "C1", `Stop` closes its channel and
leaves the subscription in the map; a call of `Unsubscribe` for "C1", or a second `Stop`,
then closes the closed channel and panics. -/
theorem Stop_then_close_panics :
    (run (NewSubscriptionManager none none) [.Subscribe "C1" "G1" nineOClock morning, .Stop]).panicText
      = none ∧
    (run (NewSubscriptionManager none none)
      [.Subscribe "C1" "G1" nineOClock morning, .Stop]).machine.closed = [0] ∧
    liveChans (run (NewSubscriptionManager none none)
      [.Subscribe "C1" "G1" nineOClock morning, .Stop]).machine.sm.subscriptions = [0] ∧
    (run (NewSubscriptionManager none none) stopThenUnsubscribe).panicText =
      some "close of closed channel" ∧
    (run (NewSubscriptionManager none none) stopTwice).panicText =
      some "close of closed channel" := by
  decide

end DailyChineseTeacher
